import Mathlib

/-!
Verification of the adaptive wave-limiter controller of this repository.

The repository provides the controller's class declarations
(`src/unnamed/part_000`, the `gpu::WaveLimiter` / `gpu::WLAlgorithmSmooth` /
`gpu::WaveLimiterManager` header) and the hardware-settings bootstrap
(`src/runtime/device/gpu/gpusettings.cpp`).  The member-function bodies of the
wave limiter itself are not part of the sources, so the control loop below is
modelled from the specification, keeping the field and constant names the
header declares.  The `Settings::create` switch is translated directly from
`gpusettings.cpp`.
-/

namespace gpu

/-- The three control-loop phases of `WaveLimiter::StateKind`
(`src/unnamed/part_000`, line 31). -/
inductive StateKind
  | WARMUP
  | ADAPT
  | RUN
deriving DecidableEq, Repr

/-- Modelled from the spec: the tunable static constants of `WaveLimiter` and
`WLAlgorithmSmooth` (`MaxWave`, `WarmUpCount`, `RunCount`, `AdaptCount`,
`AbandonThresh`, `DscThresh` are declared in the header with their values in
the missing implementation file).  `SampleCount` is the initial value of
`dynRunCount_` (the sample window of one measurement buffer) and `DynRunCap`
is the cap on the growth of `dynRunCount_` that the spec's edge-case design
requires. -/
structure Params where
  MaxWave : Nat
  WarmUpCount : Nat
  RunCount : Nat
  AdaptCount : Nat
  AbandonThresh : Nat
  DscThresh : Nat
  SampleCount : Nat
  DynRunCap : Nat
deriving DecidableEq, Repr

/-- Sanity conditions on the tunable constants: the counters of every phase
are positive and the initial sample window is positive and at most the cap. -/
def Params.Ok (p : Params) : Prop :=
  1 ≤ p.MaxWave ∧ 1 ≤ p.WarmUpCount ∧ 1 ≤ p.RunCount ∧ 1 ≤ p.AdaptCount ∧
    1 ≤ p.SampleCount ∧ p.SampleCount ≤ p.DynRunCap

instance (p : Params) : Decidable p.Ok := by
  unfold Params.Ok; infer_instance

/-- Modelled from the spec: the mutable state of one `WLAlgorithmSmooth`
instance (one per kernel and device).  Field names follow the header:
`waves_` is the committed reference wave count, `currWaves_` the wave count
used for the next dispatch, `bestWave_` the recorded optimum, `countAll_` the
total number of callbacks since creation, `reference_`/`trial_`/`ratio_` the
measurement buffers and ratio history of the smooth algorithm,
`discontinuous_` the discontinuity flag and `dynRunCount_` the adaptive
sample-window size.  `phaseCount_` counts the executions of the current phase
(the missing implementation keeps this information inside `countAll_`),
`trialWave_` is the candidate wave count currently on trial,
`adaptRounds_` the number of confident adaptation rounds of the current
ADAPT phase, and `preAdaptWave_` the wave count in effect before the current
ADAPT phase began (the fail-safe fallback value). -/
structure WLState where
  state_ : StateKind
  waves_ : Nat
  bestWave_ : Nat
  preAdaptWave_ : Nat
  currWaves_ : Nat
  countAll_ : Nat
  phaseCount_ : Nat
  reference_ : List Nat
  trial_ : List Nat
  ratio_ : List Nat
  discontinuous_ : Bool
  dynRunCount_ : Nat
  trialWave_ : Nat
  adaptRounds_ : Nat
  enable_ : Bool
  SIMDPerSH_ : Nat
deriving DecidableEq, Repr

/-- Modelled from the spec: construction of a wave limiter.  The controller
starts in WARMUP with the safe default wave count `MaxWave` (no limiting),
and disables itself when handed a `simdPerShaderArray` of zero. -/
def WaveLimiter.init (p : Params) (simdPerSH : Nat) (enable : Bool) : WLState :=
  { state_ := .WARMUP
    waves_ := p.MaxWave
    bestWave_ := p.MaxWave
    preAdaptWave_ := p.MaxWave
    currWaves_ := p.MaxWave
    countAll_ := 0
    phaseCount_ := 0
    reference_ := []
    trial_ := []
    ratio_ := []
    discontinuous_ := false
    dynRunCount_ := p.SampleCount
    trialWave_ := p.MaxWave - 1
    adaptRounds_ := 0
    enable_ := if simdPerSH = 0 then false else enable
    SIMDPerSH_ := simdPerSH }

/-- `WaveLimiter::getWavesPerSH` (header line 28): returns the current wave
count, no side effects. -/
def WaveLimiter.getWavesPerSH (s : WLState) : Nat :=
  s.currWaves_

/-- Modelled from the spec: the stability ratio of the aggregate (summed)
durations of the reference and trial buffers, in percent.  A value above 100
means the trial buffer's total duration is smaller than the reference's. -/
def ratioOf (sumRef sumTrial : Nat) : Nat :=
  100 * sumRef / sumTrial

/-- Modelled from the spec: the confident keep/discard decision.  The trial
wave count is adopted as the new reference exactly when the measured ratio
shows the trial outperforming the reference beyond the dead-zone tolerance
`AbandonThresh`; otherwise the reference is kept. -/
def adoptDecision (p : Params) (r : Nat) (s : WLState) : Nat :=
  if 100 + p.AbandonThresh < r then s.trialWave_ else s.waves_

/-- Modelled from the spec: one WARMUP execution.  The controller accumulates
`WarmUpCount` executions without changing `currWaves_`, then transitions to
ADAPT, taking the recorded best wave count as the reference and the next
lower wave count as the first trial candidate. -/
def warmupStep (p : Params) (s : WLState) : WLState :=
  if s.phaseCount_ + 1 < p.WarmUpCount then
    { s with phaseCount_ := s.phaseCount_ + 1 }
  else
    { s with state_ := .ADAPT
             phaseCount_ := 0
             waves_ := s.bestWave_
             currWaves_ := s.bestWave_
             preAdaptWave_ := s.bestWave_
             trialWave_ := s.bestWave_ - 1
             reference_ := []
             trial_ := []
             ratio_ := []
             discontinuous_ := false
             dynRunCount_ := p.SampleCount
             adaptRounds_ := 0 }

/-- Modelled from the spec: one RUN execution.  The best wave count stays in
effect; after `RunCount` executions the controller transitions back to WARMUP
to re-adapt. -/
def runStep (p : Params) (s : WLState) : WLState :=
  if s.phaseCount_ + 1 < p.RunCount then
    { s with phaseCount_ := s.phaseCount_ + 1 }
  else
    { s with state_ := .WARMUP, phaseCount_ := 0 }

/-- Modelled from the spec: close one measurement round, called when both
buffers are full.  The new ratio is compared with the previous entry of the
ratio history: agreement within `DscThresh` is a stable signal and yields a
confident keep/discard decision; disagreement is a discontinuity, which sets
`discontinuous_`, clears both buffers and grows `dynRunCount_` — unless the
growth cap is already reached, in which case adaptation is abandoned and the
pre-adaptation wave count is restored (fail-safe).  A first ratio (empty
history) just restarts measurement to obtain a second, confirming ratio. -/
def finishRound (p : Params) (s : WLState) : WLState :=
  if s.ratio_.isEmpty then
    { s with ratio_ := [ratioOf s.reference_.sum s.trial_.sum],
             reference_ := [], trial_ := [],
             currWaves_ := s.waves_ }
  else if p.DscThresh <
      Nat.dist (ratioOf s.reference_.sum s.trial_.sum) (s.ratio_.headD 0) then
    if p.DynRunCap ≤ s.dynRunCount_ then
      { s with state_ := .RUN
               phaseCount_ := 0
               discontinuous_ := true
               reference_ := []
               trial_ := []
               ratio_ := []
               bestWave_ := s.preAdaptWave_
               waves_ := s.preAdaptWave_
               currWaves_ := s.preAdaptWave_
               trialWave_ := 0 }
    else
      { s with discontinuous_ := true
               reference_ := []
               trial_ := []
               ratio_ := []
               dynRunCount_ := min (2 * s.dynRunCount_) p.DynRunCap
               currWaves_ := s.waves_ }
  else if p.AdaptCount ≤ s.adaptRounds_ + 1 ∨ s.trialWave_ ≤ 1 then
    { s with state_ := .RUN
             phaseCount_ := 0
             reference_ := []
             trial_ := []
             ratio_ := []
             discontinuous_ := false
             waves_ := adoptDecision p (ratioOf s.reference_.sum s.trial_.sum) s
             bestWave_ := adoptDecision p (ratioOf s.reference_.sum s.trial_.sum) s
             currWaves_ := adoptDecision p (ratioOf s.reference_.sum s.trial_.sum) s
             trialWave_ := 0
             adaptRounds_ := s.adaptRounds_ + 1 }
  else
    { s with reference_ := []
             trial_ := []
             ratio_ := []
             waves_ := adoptDecision p (ratioOf s.reference_.sum s.trial_.sum) s
             currWaves_ := adoptDecision p (ratioOf s.reference_.sum s.trial_.sum) s
             trialWave_ := s.trialWave_ - 1
             adaptRounds_ := s.adaptRounds_ + 1 }

/-- Modelled from the spec: one ADAPT execution with measured duration `d`.
The reference buffer is filled first (dispatching the reference wave count),
then the trial buffer (dispatching the trial wave count); when the trial
buffer fills up, the round is closed.  A state whose trial candidate is 0
(reference wave count 1, nothing below it to try) finalizes immediately. -/
def adaptStep (p : Params) (s : WLState) (d : Nat) : WLState :=
  if s.trialWave_ = 0 then
    { s with state_ := .RUN
             phaseCount_ := 0
             discontinuous_ := false
             reference_ := []
             trial_ := []
             ratio_ := []
             bestWave_ := s.waves_
             currWaves_ := s.waves_ }
  else if s.reference_.length < s.dynRunCount_ then
    if (s.reference_ ++ [d]).length < s.dynRunCount_ then
      { s with reference_ := s.reference_ ++ [d], currWaves_ := s.waves_ }
    else
      { s with reference_ := s.reference_ ++ [d],
               currWaves_ := s.trialWave_ }
  else if s.trial_.length + 1 < s.dynRunCount_ then
    { s with trial_ := s.trial_ ++ [d], currWaves_ := s.trialWave_ }
  else
    finishRound p { s with trial_ := s.trial_ ++ [d] }

/-- Modelled from the spec: `WLAlgorithmSmooth::callback(duration, waves)`
(header line 112), the profiling callback delivered once per completed kernel
execution.  A disabled limiter ignores the callback entirely.  The wave count
of the measured execution is the controller's own `currWaves_`, so the model
takes the duration only. -/
def callback (p : Params) (d : Nat) (s : WLState) : WLState :=
  if s.enable_ = false then s
  else if s.state_ = .WARMUP then
    warmupStep p { s with countAll_ := s.countAll_ + 1 }
  else if s.state_ = .ADAPT then
    adaptStep p { s with countAll_ := s.countAll_ + 1 } d
  else
    runStep p { s with countAll_ := s.countAll_ + 1 }

/-- Iterated callbacks driven by an arbitrary stream of measured durations
(`g k` is the duration delivered by the `k`-th callback). -/
def runStream (p : Params) (g : Nat → Nat) : Nat → WLState → WLState
  | 0, s => s
  | n + 1, s => runStream p (fun k => g (k + 1)) n (callback p (g 0) s)

/-- Iterated callbacks driven by a synthetic timing source: the duration of
each execution is a deterministic function `f` of the wave count the
controller dispatched it with. -/
def runClosed (p : Params) (f : Nat → Nat) : Nat → WLState → WLState
  | 0, s => s
  | n + 1, s => runClosed p f n (callback p (f s.currWaves_) s)

/-- The states a wave limiter can reach: any number of callbacks with any
measured durations, starting from any construction. -/
def Reachable (p : Params) (s : WLState) : Prop :=
  ∃ simdPerSH enable g n,
    s = runStream p g n (WaveLimiter.init p simdPerSH enable)

/-- The state invariant of the controller: every wave-count field stays in
`[1, MaxWave]`, the trial candidate lies strictly below the reference, the
sample window stays between its initial value and the growth cap, buffers
never exceed the window, the ratio history holds at most one pending entry,
phase counters stay below their bounds, and outside ADAPT the committed,
best and dispatched wave counts agree. -/
structure Inv (p : Params) (s : WLState) : Prop where
  waves_pos : 1 ≤ s.waves_
  waves_le : s.waves_ ≤ p.MaxWave
  best_pos : 1 ≤ s.bestWave_
  best_le : s.bestWave_ ≤ p.MaxWave
  pre_pos : 1 ≤ s.preAdaptWave_
  pre_le : s.preAdaptWave_ ≤ p.MaxWave
  curr_pos : 1 ≤ s.currWaves_
  curr_le : s.currWaves_ ≤ p.MaxWave
  trial_lt : s.trialWave_ < s.waves_
  dyn_lo : p.SampleCount ≤ s.dynRunCount_
  dyn_hi : s.dynRunCount_ ≤ p.DynRunCap
  ref_len : s.reference_.length ≤ s.dynRunCount_
  tri_len : s.trial_.length ≤ s.dynRunCount_
  ratio_len : s.ratio_.length ≤ 1
  warm_cnt : s.state_ = .WARMUP → s.phaseCount_ < p.WarmUpCount
  run_cnt : s.state_ = .RUN → s.phaseCount_ < p.RunCount
  adapt_rounds : s.state_ = .ADAPT → s.adaptRounds_ < p.AdaptCount
  adapt_pre : s.state_ = .ADAPT → s.preAdaptWave_ = s.bestWave_
  adapt_trial0 : s.state_ = .ADAPT → s.trialWave_ = 0 → s.waves_ = s.bestWave_
  nonadapt_waves : s.state_ ≠ .ADAPT → s.waves_ = s.bestWave_
  nonadapt_curr : s.state_ ≠ .ADAPT → s.currWaves_ = s.bestWave_

/-! ## Hardware settings bootstrap (`gpusettings.cpp`) -/

/-- The ASIC targets named by the `switch (target)` statement of
`Settings::create` (`gpusettings.cpp`, lines 178-367).  `OTHER` stands for
any `CALtarget` value outside that list, which the `default:` branch
handles. -/
inductive CALtarget
  | SUMO | SUPERSUMO | WRESTLER | DEVASTATOR | SCRAPPER
  | CAYMAN | KAUAI | BARTS | TURKS | CAICOS
  | CYPRESS | JUNIPER | REDWOOD | CEDAR
  | GREENLAND | CARRIZO | ICELAND | TONGA | FIJI | ELLESMERE | BAFFIN
  | KALINDI | SPECTRE | SPOOKY | GODAVARI
  | BONAIRE | HAWAII
  | PITCAIRN | CAPEVERDE | OLAND | HAINAN
  | TAHITI
  | OTHER
deriving DecidableEq, Repr

/-- The Evergreen/Northern-Islands group of the switch: the cases from
`CAL_TARGET_SUMO` down to `CAL_TARGET_CEDAR` that fall through to the
`break` at line 240. -/
def CALtarget.isEvergreen : CALtarget → Bool
  | .SUMO | .SUPERSUMO | .WRESTLER | .DEVASTATOR | .SCRAPPER
  | .CAYMAN | .KAUAI | .BARTS | .TURKS | .CAICOS
  | .CYPRESS | .JUNIPER | .REDWOOD | .CEDAR => true
  | _ => false

/-- The cases entering the switch at `CAL_TARGET_GREENLAND` (AI). -/
def CALtarget.isAI : CALtarget → Bool
  | .GREENLAND => true
  | _ => false

/-- The cases entering the switch at or above the VI tier (fall through from
`CAL_TARGET_GREENLAND`/`CARRIZO`/`ICELAND`/... to the VI handling). -/
def CALtarget.isVIEntry : CALtarget → Bool
  | .GREENLAND | .CARRIZO | .ICELAND | .TONGA | .FIJI | .ELLESMERE
  | .BAFFIN => true
  | _ => false

/-- The cases entering the switch at or above the CI tier. -/
def CALtarget.isCIEntry : CALtarget → Bool
  | .KALINDI | .SPECTRE | .SPOOKY | .GODAVARI | .BONAIRE | .HAWAII => true
  | t => t.isVIEntry

/-- The cases entering the switch at or above the SI tier, i.e. every case
that falls through to the `break` at line 363. -/
def CALtarget.isSIEntry : CALtarget → Bool
  | .PITCAIRN | .CAPEVERDE | .OLAND | .HAINAN | .TAHITI => true
  | t => t.isCIEntry

/-- The outcome of `Settings::create` that the switch statement determines:
whether the call succeeds (`return true` at line 508 vs `return false` at
line 366 after `assert(0 && "Unknown ASIC type!")`) and the ASIC-generation
flags the fall-through chain accumulates. -/
structure SettingsResult where
  success : Bool
  siPlus : Bool
  ciPlus : Bool
  viPlus : Bool
  aiPlus : Bool
deriving DecidableEq, Repr

/-- `Settings::create` (`gpusettings.cpp`, lines 154-509), restricted to the
control flow of the ASIC switch: a target in the Evergreen group breaks at
line 240 and succeeds with no SI/CI/VI/AI flags; a target in the SI-or-later
chain sets the generation flags of every tier it falls through and breaks at
line 363; any other target hits `default:` and returns `false`.  All
remaining settings writes are straight-line code before `return true` and do
not affect the result modelled here. -/
def Settings.create (target : CALtarget) : SettingsResult :=
  if target.isEvergreen then
    { success := true, siPlus := false, ciPlus := false, viPlus := false,
      aiPlus := false }
  else if target.isSIEntry then
    { success := true
      siPlus := true
      ciPlus := target.isCIEntry
      viPlus := target.isVIEntry
      aiPlus := target.isAI }
  else
    { success := false, siPlus := false, ciPlus := false, viPlus := false,
      aiPlus := false }

/-- The recognized ASIC types: the explicit `case` labels of the switch, as
the claim enumerates them. -/
def recognizedTarget (target : CALtarget) : Bool :=
  target.isEvergreen || target.isSIEntry

/-! ## The wave limiter manager

`WaveLimiterManager` (header lines 119-149) keeps one wave limiter per
virtual device.  Virtual devices are modelled by their identity (a `Nat`);
the `limiters_` map is an association list.  The header declares
`getWavesPerSH` as a `const` member (line 125), so it can only read the map;
creation of per-device entries happens in `getProfilingCallback`
(line 128). -/

structure WLManager where
  simdPerSH_ : Nat
  limiters_ : List (Nat × WLState)
  enable_ : Bool
  enableDump_ : Bool
  fixed_ : Nat
deriving DecidableEq, Repr

/-- Modelled from the spec: manager construction.  `fixed_` is the fixed
waves/simd override (non-zero disables adaptation); the manager starts
disabled until `enable` decides the policy. -/
def WLManager.init (simdPerSH fixedWave : Nat) : WLManager :=
  { simdPerSH_ := simdPerSH
    limiters_ := []
    enable_ := false
    enableDump_ := false
    fixed_ := fixedWave }

/-- Modelled from the spec, respecting the header's `const` qualifier:
`WaveLimiterManager::getWavesPerSH(device)` returns the fixed override when
set, the safe default when the manager is disabled, and otherwise the
current wave count of the device's limiter — or the safe default when no
limiter exists for the device yet.  Being `const`, it cannot create one. -/
def WLManager.getWavesPerSH (p : Params) (m : WLManager) (dev : Nat) : Nat :=
  if m.fixed_ ≠ 0 then m.fixed_
  else if m.enable_ = false then p.MaxWave
  else (m.limiters_.lookup dev).elim p.MaxWave WaveLimiter.getWavesPerSH

/-- The claim's reading of `getWavesPerSH`: identical branches, but the
limiter for the device is created lazily when missing and the call returns
the possibly-updated manager.  Stated only to compare with the `const`
version modelled from the header. -/
def WLManager.getWavesPerSHLazy (p : Params) (m : WLManager) (dev : Nat) :
    WLManager × Nat :=
  if m.fixed_ ≠ 0 then (m, m.fixed_)
  else if m.enable_ = false then (m, p.MaxWave)
  else
    match (m.limiters_.lookup dev) with
    | some s => (m, WaveLimiter.getWavesPerSH s)
    | none =>
        let s := WaveLimiter.init p m.simdPerSH_ m.enable_
        ({ m with limiters_ := (dev, s) :: m.limiters_ },
         WaveLimiter.getWavesPerSH s)

/-- Modelled from the spec: `getProfilingCallback(device)` hands out the
callback handle for the device's limiter, creating the limiter lazily. -/
def WLManager.getProfilingCallback (p : Params) (m : WLManager) (dev : Nat) :
    WLManager :=
  match (m.limiters_.lookup dev) with
  | some _ => m
  | none =>
      { m with limiters_ :=
          (dev, WaveLimiter.init p m.simdPerSH_ m.enable_) :: m.limiters_ }

/-- Modelled from the spec: `enable(isCiPlus)`, the one-time policy decision.
With a fixed override in force the decision is moot; otherwise adaptation is
enabled exactly for CI-and-later hardware. -/
def WLManager.enable (m : WLManager) (isCiPlus : Bool) : WLManager :=
  if m.fixed_ ≠ 0 then m else { m with enable_ := isCiPlus }

/-- Modelled from the spec: delivery of a profiling callback for `dev` with
measured duration `d` — the runtime updates the device's limiter through the
handle obtained from `getProfilingCallback`. -/
def WLManager.profile (p : Params) (m : WLManager) (dev d : Nat) : WLManager :=
  { m with limiters_ :=
      m.limiters_.map fun e => if e.1 = dev then (e.1, callback p d e.2) else e }

/-- The manager operations a kernel's lifetime interleaves. -/
inductive MgrOp
  | getCallbackHandle (dev : Nat)
  | profile (dev d : Nat)
  | enablePolicy (isCiPlus : Bool)
deriving DecidableEq, Repr

/-- Apply one manager operation. -/
def applyOp (p : Params) (m : WLManager) : MgrOp → WLManager
  | .getCallbackHandle dev => m.getProfilingCallback p dev
  | .profile dev d => m.profile p dev d
  | .enablePolicy b => m.enable b

/-- Apply a history of manager operations, oldest first. -/
def applyOps (p : Params) (m : WLManager) : List MgrOp → WLManager
  | [] => m
  | op :: ops => applyOps p (applyOp p m op) ops

/-- A concrete set of tunables used to exercise the model on closed
inputs: `MaxWave = 8`, three warm-up executions, four run executions,
sample window 2, growth cap 8. -/
def pW : Params :=
  { MaxWave := 8
    WarmUpCount := 3
    RunCount := 4
    AdaptCount := 10
    AbandonThresh := 5
    DscThresh := 10
    SampleCount := 2
    DynRunCap := 8 }

/-- A concrete enabled manager with no fixed override and no per-device
state yet. -/
def mgrW : WLManager :=
  { simdPerSH_ := 4
    limiters_ := []
    enable_ := true
    enableDump_ := false
    fixed_ := 0 }

/-- The state on which `finishRound` operates when the sample delivered by a
callback completes the trial buffer: the execution counter is bumped and the
duration is appended to the trial buffer. -/
def roundState (s : WLState) (d : Nat) : WLState :=
  { s with countAll_ := s.countAll_ + 1, trial_ := s.trial_ ++ [d] }

/-- Tunables that reach the `dynRunCount_` growth cap quickly: one warm-up
execution, sample window 1, cap 2, `DscThresh = 0` (every ratio change is a
discontinuity) and `AbandonThresh = 200` (no trial is ever adopted). -/
def pC : Params :=
  { MaxWave := 3
    WarmUpCount := 1
    RunCount := 2
    AdaptCount := 5
    AbandonThresh := 200
    DscThresh := 0
    SampleCount := 1
    DynRunCap := 2 }

/-- A duration stream whose ratios keep jumping: it produces a first
discontinuity that grows `dynRunCount_` to the cap, then a second one at the
cap. -/
def gC : Nat → Nat := fun k => [9, 1, 1, 2, 1, 1, 1, 1, 1, 3, 3, 1, 1].getD k 1

/-- The reachable state just before a discontinuity is detected with
`dynRunCount_` still below the cap. -/
def sGrow : WLState := runStream pC gC 4 (WaveLimiter.init pC 4 true)

/-- The reachable state just before a discontinuity is detected with
`dynRunCount_` already at the cap. -/
def sCap : WLState := runStream pC gC 12 (WaveLimiter.init pC 4 true)

/-- A termination measure for the ADAPT phase: every callback that keeps the
controller in ADAPT strictly decreases it.  The three summands rank, in
decreasing weight, the remaining sample-window growth together with the
remaining adaptation rounds, the missing confirmation ratio, and the missing
samples of the current round. -/
def adaptMeasure (p : Params) (s : WLState) : Nat :=
  (4 * p.DynRunCap + 2) *
      ((p.DynRunCap - s.dynRunCount_) + (p.AdaptCount - s.adaptRounds_)) +
    (2 * p.DynRunCap + 1) * (1 - s.ratio_.length) +
    (2 * s.dynRunCount_ - (s.reference_.length + s.trial_.length))

/-- An upper bound on the number of callbacks until the controller is next
in WARMUP. -/
def toWarmupBound (p : Params) (s : WLState) : Nat :=
  if s.state_ = .WARMUP then 0
  else if s.state_ = .ADAPT then adaptMeasure p s + 1 + p.RunCount
  else p.RunCount - s.phaseCount_

/-- A state in the middle of the WARMUP phase of the first cycle: all wave
fields still at the safe default `MaxWave`, `c` callbacks seen in total and
`q` of them inside the current warm-up. -/
def warmState (p : Params) (simd c q : Nat) : WLState :=
  { state_ := .WARMUP
    waves_ := p.MaxWave
    bestWave_ := p.MaxWave
    preAdaptWave_ := p.MaxWave
    currWaves_ := p.MaxWave
    countAll_ := c
    phaseCount_ := q
    reference_ := []
    trial_ := []
    ratio_ := []
    discontinuous_ := false
    dynRunCount_ := p.SampleCount
    trialWave_ := p.MaxWave - 1
    adaptRounds_ := 0
    enable_ := true
    SIMDPerSH_ := simd }

/-- A state inside the ADAPT phase of the first adaptation cycle: committed
reference wave count `r` under trial against candidate `t`, measurement
buffers `ref` and `tri`, ratio history `ρs`, dispatch wave count `cu`, after
`q` completed adaptation rounds and `c` callbacks in total. -/
def fillState (p : Params) (simd c q r t : Nat) (ref tri ρs : List Nat)
    (cu : Nat) : WLState :=
  { state_ := .ADAPT
    waves_ := r
    bestWave_ := p.MaxWave
    preAdaptWave_ := p.MaxWave
    currWaves_ := cu
    countAll_ := c
    phaseCount_ := 0
    reference_ := ref
    trial_ := tri
    ratio_ := ρs
    discontinuous_ := false
    dynRunCount_ := p.SampleCount
    trialWave_ := t
    adaptRounds_ := q
    enable_ := true
    SIMDPerSH_ := simd }

/-- The ADAPT state at the start of a measurement round: both buffers and
the ratio history empty, the reference wave count dispatched. -/
def pairState (p : Params) (simd c q r t : Nat) : WLState :=
  fillState p simd c q r t [] [] [] r

/-- The RUN state reached when the first adaptation phase finalizes with
wave count `w` after `q` rounds. -/
def finalRunState (p : Params) (simd c q w : Nat) : WLState :=
  { state_ := .RUN
    waves_ := w
    bestWave_ := w
    preAdaptWave_ := p.MaxWave
    currWaves_ := w
    countAll_ := c
    phaseCount_ := 0
    reference_ := []
    trial_ := []
    ratio_ := []
    discontinuous_ := false
    dynRunCount_ := p.SampleCount
    trialWave_ := 0
    adaptRounds_ := q
    enable_ := true
    SIMDPerSH_ := simd }

/-- Tunables for the convergence fixtures: `MaxWave = 3`, one warm-up
execution, sample window 1, a dead zone of `AbandonThresh = 0` and a
`DscThresh` so large that no discontinuity is ever signalled. -/
def p4 : Params :=
  { MaxWave := 3
    WarmUpCount := 1
    RunCount := 5
    AdaptCount := 5
    AbandonThresh := 0
    DscThresh := 1000
    SampleCount := 1
    DynRunCap := 4 }

/-- A synthetic timing source in which wave count 2 deterministically yields
the strictly lowest duration — but only 0.9% below the alternatives, inside
the integer dead zone of the keep/discard decision. -/
def f0 : Nat → Nat := fun w => if w = 2 then 1000 else 1009

/-- A synthetic timing source in which wave count 2 yields the lowest
duration by a factor of two — far beyond the dead zone. -/
def f1 : Nat → Nat := fun w => if w = 2 then 100 else 200

/-! ## Iteration lemmas -/

theorem runStream_succ (p : Params) (g : Nat → Nat) (n : Nat) (s : WLState) :
    runStream p g (n + 1) s
      = runStream p (fun k => g (k + 1)) n (callback p (g 0) s) := rfl

theorem runClosed_add (p : Params) (f : Nat → Nat) (m n : Nat) (s : WLState) :
    runClosed p f (m + n) s = runClosed p f n (runClosed p f m s) := by
  induction m generalizing s with
  | zero => simp [runClosed]
  | succ m ih =>
      have : m + 1 + n = (m + n) + 1 := by omega
      rw [this]
      simp only [runClosed]
      rw [ih]

/-! ## Preservation of the state invariant -/

theorem inv_init (p : Params) (hok : p.Ok) (simdPerSH : Nat) (enable : Bool) :
    Inv p (WaveLimiter.init p simdPerSH enable) := by
  obtain ⟨hMW, hWU, hRC, hAC, hSC, hcap⟩ := hok
  exact
    { waves_pos := hMW
      waves_le := le_refl _
      best_pos := hMW
      best_le := le_refl _
      pre_pos := hMW
      pre_le := le_refl _
      curr_pos := hMW
      curr_le := le_refl _
      trial_lt := by show p.MaxWave - 1 < p.MaxWave; omega
      dyn_lo := le_refl _
      dyn_hi := hcap
      ref_len := Nat.zero_le _
      tri_len := Nat.zero_le _
      ratio_len := Nat.zero_le _
      warm_cnt := fun _ => hWU
      run_cnt := fun h => nomatch h
      adapt_rounds := fun h => nomatch h
      adapt_pre := fun h => nomatch h
      adapt_trial0 := fun h => nomatch h
      nonadapt_waves := fun _ => rfl
      nonadapt_curr := fun _ => rfl }

theorem inv_countAll (p : Params) (s : WLState) (hinv : Inv p s) (n : Nat) :
    Inv p { s with countAll_ := n } :=
  ⟨hinv.waves_pos, hinv.waves_le, hinv.best_pos, hinv.best_le, hinv.pre_pos,
   hinv.pre_le, hinv.curr_pos, hinv.curr_le, hinv.trial_lt, hinv.dyn_lo,
   hinv.dyn_hi, hinv.ref_len, hinv.tri_len, hinv.ratio_len, hinv.warm_cnt,
   hinv.run_cnt, hinv.adapt_rounds, hinv.adapt_pre, hinv.adapt_trial0,
   hinv.nonadapt_waves, hinv.nonadapt_curr⟩

theorem adoptDecision_pos (p : Params) (r : Nat) (s : WLState)
    (h1 : 1 ≤ s.trialWave_) (h2 : 1 ≤ s.waves_) : 1 ≤ adoptDecision p r s := by
  unfold adoptDecision; split <;> omega

theorem adoptDecision_le (p : Params) (r : Nat) (s : WLState)
    (h1 : s.trialWave_ < s.waves_) (h2 : s.waves_ ≤ p.MaxWave) :
    adoptDecision p r s ≤ p.MaxWave := by
  unfold adoptDecision; split <;> omega

theorem inv_finishRound (p : Params) (s : WLState) (hok : p.Ok)
    (hst : s.state_ = .ADAPT)
    (hw1 : 1 ≤ s.waves_) (hwM : s.waves_ ≤ p.MaxWave)
    (hb1 : 1 ≤ s.bestWave_) (hbM : s.bestWave_ ≤ p.MaxWave)
    (hp1 : 1 ≤ s.preAdaptWave_) (hpM : s.preAdaptWave_ ≤ p.MaxWave)
    (_hc1 : 1 ≤ s.currWaves_) (_hcM : s.currWaves_ ≤ p.MaxWave)
    (htl : s.trialWave_ < s.waves_) (ht1 : 1 ≤ s.trialWave_)
    (hdlo : p.SampleCount ≤ s.dynRunCount_) (hdhi : s.dynRunCount_ ≤ p.DynRunCap)
    (hrounds : s.adaptRounds_ < p.AdaptCount)
    (hpre : s.preAdaptWave_ = s.bestWave_) :
    Inv p (finishRound p s) := by
  obtain ⟨hMW, hWU, hRC, hAC, hSC, hcap⟩ := hok
  unfold finishRound
  by_cases hemp : s.ratio_.isEmpty
  · rw [if_pos hemp]
    exact
      { waves_pos := hw1
        waves_le := hwM
        best_pos := hb1
        best_le := hbM
        pre_pos := hp1
        pre_le := hpM
        curr_pos := hw1
        curr_le := hwM
        trial_lt := htl
        dyn_lo := hdlo
        dyn_hi := hdhi
        ref_len := Nat.zero_le _
        tri_len := Nat.zero_le _
        ratio_len := le_refl _
        warm_cnt := fun h => absurd (hst.symm.trans h) (by decide)
        run_cnt := fun h => absurd (hst.symm.trans h) (by decide)
        adapt_rounds := fun _ => hrounds
        adapt_pre := fun _ => hpre
        adapt_trial0 := fun _ h0 =>
          absurd (h0 : s.trialWave_ = 0)
            (show ¬(s.trialWave_ = 0) by intro hh; omega)
        nonadapt_waves := fun h => absurd hst h
        nonadapt_curr := fun h => absurd hst h }
  · rw [if_neg hemp]
    by_cases hdsc : p.DscThresh <
        Nat.dist (ratioOf s.reference_.sum s.trial_.sum) (s.ratio_.headD 0)
    · rw [if_pos hdsc]
      by_cases hatcap : p.DynRunCap ≤ s.dynRunCount_
      · rw [if_pos hatcap]
        exact
          { waves_pos := hp1
            waves_le := hpM
            best_pos := hp1
            best_le := hpM
            pre_pos := hp1
            pre_le := hpM
            curr_pos := hp1
            curr_le := hpM
            trial_lt := hp1
            dyn_lo := hdlo
            dyn_hi := hdhi
            ref_len := Nat.zero_le _
            tri_len := Nat.zero_le _
            ratio_len := Nat.zero_le _
            warm_cnt := fun h => nomatch h
            run_cnt := fun _ => hRC
            adapt_rounds := fun h => nomatch h
            adapt_pre := fun h => nomatch h
            adapt_trial0 := fun h => nomatch h
            nonadapt_waves := fun _ => rfl
            nonadapt_curr := fun _ => rfl }
      · rw [if_neg hatcap]
        exact
          { waves_pos := hw1
            waves_le := hwM
            best_pos := hb1
            best_le := hbM
            pre_pos := hp1
            pre_le := hpM
            curr_pos := hw1
            curr_le := hwM
            trial_lt := htl
            dyn_lo := by show p.SampleCount ≤ min (2 * s.dynRunCount_) p.DynRunCap; omega
            dyn_hi := by show min (2 * s.dynRunCount_) p.DynRunCap ≤ p.DynRunCap; omega
            ref_len := Nat.zero_le _
            tri_len := Nat.zero_le _
            ratio_len := Nat.zero_le _
            warm_cnt := fun h => absurd (hst.symm.trans h) (by decide)
            run_cnt := fun h => absurd (hst.symm.trans h) (by decide)
            adapt_rounds := fun _ => hrounds
            adapt_pre := fun _ => hpre
            adapt_trial0 := fun _ h0 =>
              absurd (h0 : s.trialWave_ = 0)
                (show ¬(s.trialWave_ = 0) by intro hh; omega)
            nonadapt_waves := fun h => absurd hst h
            nonadapt_curr := fun h => absurd hst h }
    · rw [if_neg hdsc]
      by_cases hfin : p.AdaptCount ≤ s.adaptRounds_ + 1 ∨ s.trialWave_ ≤ 1
      · rw [if_pos hfin]
        exact
          { waves_pos := adoptDecision_pos p _ s ht1 hw1
            waves_le := adoptDecision_le p _ s htl hwM
            best_pos := adoptDecision_pos p _ s ht1 hw1
            best_le := adoptDecision_le p _ s htl hwM
            pre_pos := hp1
            pre_le := hpM
            curr_pos := adoptDecision_pos p _ s ht1 hw1
            curr_le := adoptDecision_le p _ s htl hwM
            trial_lt := adoptDecision_pos p _ s ht1 hw1
            dyn_lo := hdlo
            dyn_hi := hdhi
            ref_len := Nat.zero_le _
            tri_len := Nat.zero_le _
            ratio_len := Nat.zero_le _
            warm_cnt := fun h => nomatch h
            run_cnt := fun _ => hRC
            adapt_rounds := fun h => nomatch h
            adapt_pre := fun h => nomatch h
            adapt_trial0 := fun h => nomatch h
            nonadapt_waves := fun _ => rfl
            nonadapt_curr := fun _ => rfl }
      · rw [if_neg hfin]
        have ht2 : 2 ≤ s.trialWave_ := by omega
        exact
          { waves_pos := adoptDecision_pos p _ s ht1 hw1
            waves_le := adoptDecision_le p _ s htl hwM
            best_pos := hb1
            best_le := hbM
            pre_pos := hp1
            pre_le := hpM
            curr_pos := adoptDecision_pos p _ s ht1 hw1
            curr_le := adoptDecision_le p _ s htl hwM
            trial_lt := by
              show s.trialWave_ - 1 < adoptDecision p _ s
              unfold adoptDecision; split <;> omega
            dyn_lo := hdlo
            dyn_hi := hdhi
            ref_len := Nat.zero_le _
            tri_len := Nat.zero_le _
            ratio_len := Nat.zero_le _
            warm_cnt := fun h => absurd (hst.symm.trans h) (by decide)
            run_cnt := fun h => absurd (hst.symm.trans h) (by decide)
            adapt_rounds := fun _ => by
              show s.adaptRounds_ + 1 < p.AdaptCount; omega
            adapt_pre := fun _ => hpre
            adapt_trial0 := fun _ h0 =>
              absurd (h0 : s.trialWave_ - 1 = 0)
                (show ¬(s.trialWave_ - 1 = 0) by intro hh; omega)
            nonadapt_waves := fun h => absurd hst h
            nonadapt_curr := fun h => absurd hst h }

theorem inv_adaptStep (p : Params) (s : WLState) (d : Nat) (hok : p.Ok)
    (hinv : Inv p s) (hst : s.state_ = .ADAPT) : Inv p (adaptStep p s d) := by
  have hok2 := hok
  obtain ⟨hMW, hWU, hRC, hAC, hSC, hcap⟩ := hok2
  unfold adaptStep
  by_cases h0 : s.trialWave_ = 0
  · rw [if_pos h0]
    have hwb : s.waves_ = s.bestWave_ := hinv.adapt_trial0 hst h0
    exact
      { waves_pos := hinv.waves_pos
        waves_le := hinv.waves_le
        best_pos := hinv.waves_pos
        best_le := hinv.waves_le
        pre_pos := hinv.pre_pos
        pre_le := hinv.pre_le
        curr_pos := hinv.waves_pos
        curr_le := hinv.waves_le
        trial_lt := hinv.trial_lt
        dyn_lo := hinv.dyn_lo
        dyn_hi := hinv.dyn_hi
        ref_len := Nat.zero_le _
        tri_len := Nat.zero_le _
        ratio_len := Nat.zero_le _
        warm_cnt := fun h => nomatch h
        run_cnt := fun _ => hRC
        adapt_rounds := fun h => nomatch h
        adapt_pre := fun h => nomatch h
        adapt_trial0 := fun h => nomatch h
        nonadapt_waves := fun _ => rfl
        nonadapt_curr := fun _ => rfl }
  · rw [if_neg h0]
    have ht1 : 1 ≤ s.trialWave_ := by omega
    by_cases href : s.reference_.length < s.dynRunCount_
    · rw [if_pos href]
      have hlen : (s.reference_ ++ [d]).length = s.reference_.length + 1 := by
        simp
      by_cases href2 : (s.reference_ ++ [d]).length < s.dynRunCount_
      · rw [if_pos href2]
        exact
          { waves_pos := hinv.waves_pos
            waves_le := hinv.waves_le
            best_pos := hinv.best_pos
            best_le := hinv.best_le
            pre_pos := hinv.pre_pos
            pre_le := hinv.pre_le
            curr_pos := hinv.waves_pos
            curr_le := hinv.waves_le
            trial_lt := hinv.trial_lt
            dyn_lo := hinv.dyn_lo
            dyn_hi := hinv.dyn_hi
            ref_len := by
              show (s.reference_ ++ [d]).length ≤ s.dynRunCount_; omega
            tri_len := hinv.tri_len
            ratio_len := hinv.ratio_len
            warm_cnt := fun h => absurd (hst.symm.trans h) (by decide)
            run_cnt := fun h => absurd (hst.symm.trans h) (by decide)
            adapt_rounds := fun _ => hinv.adapt_rounds hst
            adapt_pre := fun _ => hinv.adapt_pre hst
            adapt_trial0 := fun _ hh => absurd hh h0
            nonadapt_waves := fun h => absurd hst h
            nonadapt_curr := fun h => absurd hst h }
      · rw [if_neg href2]
        have htM : s.trialWave_ ≤ p.MaxWave :=
          le_trans (le_of_lt hinv.trial_lt) hinv.waves_le
        exact
          { waves_pos := hinv.waves_pos
            waves_le := hinv.waves_le
            best_pos := hinv.best_pos
            best_le := hinv.best_le
            pre_pos := hinv.pre_pos
            pre_le := hinv.pre_le
            curr_pos := ht1
            curr_le := htM
            trial_lt := hinv.trial_lt
            dyn_lo := hinv.dyn_lo
            dyn_hi := hinv.dyn_hi
            ref_len := by
              show (s.reference_ ++ [d]).length ≤ s.dynRunCount_
              have := hinv.ref_len
              simp only [List.length_append, List.length_singleton]
              omega
            tri_len := hinv.tri_len
            ratio_len := hinv.ratio_len
            warm_cnt := fun h => absurd (hst.symm.trans h) (by decide)
            run_cnt := fun h => absurd (hst.symm.trans h) (by decide)
            adapt_rounds := fun _ => hinv.adapt_rounds hst
            adapt_pre := fun _ => hinv.adapt_pre hst
            adapt_trial0 := fun _ hh => absurd hh h0
            nonadapt_waves := fun h => absurd hst h
            nonadapt_curr := fun h => absurd hst h }
    · rw [if_neg href]
      by_cases htri : s.trial_.length + 1 < s.dynRunCount_
      · rw [if_pos htri]
        have htM : s.trialWave_ ≤ p.MaxWave :=
          le_trans (le_of_lt hinv.trial_lt) hinv.waves_le
        have hlen : (s.trial_ ++ [d]).length = s.trial_.length + 1 := by simp
        exact
          { waves_pos := hinv.waves_pos
            waves_le := hinv.waves_le
            best_pos := hinv.best_pos
            best_le := hinv.best_le
            pre_pos := hinv.pre_pos
            pre_le := hinv.pre_le
            curr_pos := ht1
            curr_le := htM
            trial_lt := hinv.trial_lt
            dyn_lo := hinv.dyn_lo
            dyn_hi := hinv.dyn_hi
            ref_len := hinv.ref_len
            tri_len := by
              show (s.trial_ ++ [d]).length ≤ s.dynRunCount_
              simp only [List.length_append, List.length_singleton]
              omega
            ratio_len := hinv.ratio_len
            warm_cnt := fun h => absurd (hst.symm.trans h) (by decide)
            run_cnt := fun h => absurd (hst.symm.trans h) (by decide)
            adapt_rounds := fun _ => hinv.adapt_rounds hst
            adapt_pre := fun _ => hinv.adapt_pre hst
            adapt_trial0 := fun _ hh => absurd hh h0
            nonadapt_waves := fun h => absurd hst h
            nonadapt_curr := fun h => absurd hst h }
      · rw [if_neg htri]
        exact inv_finishRound p _ hok hst hinv.waves_pos hinv.waves_le
          hinv.best_pos hinv.best_le hinv.pre_pos hinv.pre_le hinv.curr_pos
          hinv.curr_le hinv.trial_lt ht1 hinv.dyn_lo hinv.dyn_hi
          (hinv.adapt_rounds hst) (hinv.adapt_pre hst)

theorem inv_warmupStep (p : Params) (s : WLState) (hok : p.Ok) (hinv : Inv p s)
    (hst : s.state_ = .WARMUP) : Inv p (warmupStep p s) := by
  obtain ⟨hMW, hWU, hRC, hAC, hSC, hcap⟩ := hok
  have hne : s.state_ ≠ .ADAPT := by rw [hst]; decide
  unfold warmupStep
  by_cases hc : s.phaseCount_ + 1 < p.WarmUpCount
  · rw [if_pos hc]
    exact
      { waves_pos := hinv.waves_pos
        waves_le := hinv.waves_le
        best_pos := hinv.best_pos
        best_le := hinv.best_le
        pre_pos := hinv.pre_pos
        pre_le := hinv.pre_le
        curr_pos := hinv.curr_pos
        curr_le := hinv.curr_le
        trial_lt := hinv.trial_lt
        dyn_lo := hinv.dyn_lo
        dyn_hi := hinv.dyn_hi
        ref_len := hinv.ref_len
        tri_len := hinv.tri_len
        ratio_len := hinv.ratio_len
        warm_cnt := fun _ => hc
        run_cnt := fun h => absurd (hst.symm.trans h) (by decide)
        adapt_rounds := fun h => absurd (hst.symm.trans h) (by decide)
        adapt_pre := fun h => absurd (hst.symm.trans h) (by decide)
        adapt_trial0 := fun h => absurd (hst.symm.trans h) (by decide)
        nonadapt_waves := fun _ => hinv.nonadapt_waves hne
        nonadapt_curr := fun _ => hinv.nonadapt_curr hne }
  · rw [if_neg hc]
    have hb := hinv.best_pos
    exact
      { waves_pos := hinv.best_pos
        waves_le := hinv.best_le
        best_pos := hinv.best_pos
        best_le := hinv.best_le
        pre_pos := hinv.best_pos
        pre_le := hinv.best_le
        curr_pos := hinv.best_pos
        curr_le := hinv.best_le
        trial_lt := by show s.bestWave_ - 1 < s.bestWave_; omega
        dyn_lo := le_refl _
        dyn_hi := hcap
        ref_len := Nat.zero_le _
        tri_len := Nat.zero_le _
        ratio_len := Nat.zero_le _
        warm_cnt := fun h => nomatch h
        run_cnt := fun h => nomatch h
        adapt_rounds := fun _ => hAC
        adapt_pre := fun _ => rfl
        adapt_trial0 := fun _ _ => rfl
        nonadapt_waves := fun h => absurd rfl h
        nonadapt_curr := fun h => absurd rfl h }

theorem inv_runStep (p : Params) (s : WLState) (hok : p.Ok) (hinv : Inv p s)
    (hst : s.state_ = .RUN) : Inv p (runStep p s) := by
  obtain ⟨hMW, hWU, hRC, hAC, hSC, hcap⟩ := hok
  have hne : s.state_ ≠ .ADAPT := by rw [hst]; decide
  unfold runStep
  by_cases hc : s.phaseCount_ + 1 < p.RunCount
  · rw [if_pos hc]
    exact
      { waves_pos := hinv.waves_pos
        waves_le := hinv.waves_le
        best_pos := hinv.best_pos
        best_le := hinv.best_le
        pre_pos := hinv.pre_pos
        pre_le := hinv.pre_le
        curr_pos := hinv.curr_pos
        curr_le := hinv.curr_le
        trial_lt := hinv.trial_lt
        dyn_lo := hinv.dyn_lo
        dyn_hi := hinv.dyn_hi
        ref_len := hinv.ref_len
        tri_len := hinv.tri_len
        ratio_len := hinv.ratio_len
        warm_cnt := fun h => absurd (hst.symm.trans h) (by decide)
        run_cnt := fun _ => hc
        adapt_rounds := fun h => absurd (hst.symm.trans h) (by decide)
        adapt_pre := fun h => absurd (hst.symm.trans h) (by decide)
        adapt_trial0 := fun h => absurd (hst.symm.trans h) (by decide)
        nonadapt_waves := fun _ => hinv.nonadapt_waves hne
        nonadapt_curr := fun _ => hinv.nonadapt_curr hne }
  · rw [if_neg hc]
    exact
      { waves_pos := hinv.waves_pos
        waves_le := hinv.waves_le
        best_pos := hinv.best_pos
        best_le := hinv.best_le
        pre_pos := hinv.pre_pos
        pre_le := hinv.pre_le
        curr_pos := hinv.curr_pos
        curr_le := hinv.curr_le
        trial_lt := hinv.trial_lt
        dyn_lo := hinv.dyn_lo
        dyn_hi := hinv.dyn_hi
        ref_len := hinv.ref_len
        tri_len := hinv.tri_len
        ratio_len := hinv.ratio_len
        warm_cnt := fun _ => hWU
        run_cnt := fun h => nomatch h
        adapt_rounds := fun h => nomatch h
        adapt_pre := fun h => nomatch h
        adapt_trial0 := fun h => nomatch h
        nonadapt_waves := fun _ => hinv.nonadapt_waves hne
        nonadapt_curr := fun _ => hinv.nonadapt_curr hne }

theorem inv_callback (p : Params) (d : Nat) (s : WLState) (hok : p.Ok)
    (hinv : Inv p s) : Inv p (callback p d s) := by
  unfold callback
  by_cases hen : s.enable_ = false
  · rw [if_pos hen]; exact hinv
  · rw [if_neg hen]
    by_cases hw : s.state_ = .WARMUP
    · rw [if_pos hw]
      exact inv_warmupStep p _ hok (inv_countAll p s hinv _) hw
    · rw [if_neg hw]
      by_cases ha : s.state_ = .ADAPT
      · rw [if_pos ha]
        exact inv_adaptStep p _ d hok (inv_countAll p s hinv _) ha
      · rw [if_neg ha]
        have hrun : s.state_ = .RUN := by
          cases hstate : s.state_ <;> simp_all
        exact inv_runStep p _ hok (inv_countAll p s hinv _) hrun

theorem inv_runStream (p : Params) (hok : p.Ok) (g : Nat → Nat) (n : Nat)
    (s : WLState) (hinv : Inv p s) : Inv p (runStream p g n s) := by
  induction n generalizing g s with
  | zero => exact hinv
  | succ n ih =>
      rw [runStream_succ]
      exact ih _ _ (inv_callback p _ s hok hinv)

theorem reachable_inv (p : Params) (s : WLState) (hok : p.Ok)
    (hr : Reachable p s) : Inv p s := by
  obtain ⟨simd, en, g, n, rfl⟩ := hr
  exact inv_runStream p hok g n _ (inv_init p hok simd en)

/-! ## Manager lemmas -/

theorem applyOp_fixed (p : Params) (m : WLManager) (op : MgrOp) :
    (applyOp p m op).fixed_ = m.fixed_ := by
  cases op with
  | getCallbackHandle dev =>
      simp only [applyOp]
      unfold WLManager.getProfilingCallback
      cases h : m.limiters_.lookup dev <;> simp [h]
  | profile dev d => rfl
  | enablePolicy b =>
      simp only [applyOp]
      unfold WLManager.enable
      split <;> rfl

theorem applyOps_fixed (p : Params) (ops : List MgrOp) (m : WLManager) :
    (applyOps p m ops).fixed_ = m.fixed_ := by
  induction ops generalizing m with
  | nil => rfl
  | cons op ops ih =>
      unfold applyOps
      rw [ih, applyOp_fixed]

theorem disabled_callback (p : Params) (d : Nat) (s : WLState)
    (hen : s.enable_ = false) : callback p d s = s := by
  unfold callback
  rw [if_pos hen]

theorem disabled_runStream (p : Params) (g : Nat → Nat) (n : Nat) (s : WLState)
    (hen : s.enable_ = false) : runStream p g n s = s := by
  induction n generalizing g with
  | zero => rfl
  | succ n ih =>
      rw [runStream_succ, disabled_callback p _ s hen]
      exact ih _

/-! ## Claim theorems -/

/-- C1: for every reachable state of a WaveLimiter and for every call, the
wave count returned by `getWavesPerSH` satisfies `1 ≤ value ≤ MaxWave`; in
particular the `currWaves_` field is in `[1, MaxWave]` after every
operation. -/
theorem getWavesPerSH_in_range (p : Params) (hok : p.Ok) (s : WLState)
    (hr : Reachable p s) :
    1 ≤ WaveLimiter.getWavesPerSH s ∧ WaveLimiter.getWavesPerSH s ≤ p.MaxWave ∧
      1 ≤ s.currWaves_ ∧ s.currWaves_ ≤ p.MaxWave := by
  have hinv := reachable_inv p s hok hr
  exact ⟨hinv.curr_pos, hinv.curr_le, hinv.curr_pos, hinv.curr_le⟩

theorem getWavesPerSH_in_range_witness :
    pW.Ok ∧
      Reachable pW (runStream pW (fun _ => 5) 9 (WaveLimiter.init pW 4 true)) ∧
      (1 ≤ WaveLimiter.getWavesPerSH
          (runStream pW (fun _ => 5) 9 (WaveLimiter.init pW 4 true)) ∧
        WaveLimiter.getWavesPerSH
            (runStream pW (fun _ => 5) 9 (WaveLimiter.init pW 4 true)) ≤
          pW.MaxWave ∧
        1 ≤ (runStream pW (fun _ => 5) 9 (WaveLimiter.init pW 4 true)).currWaves_ ∧
        (runStream pW (fun _ => 5) 9 (WaveLimiter.init pW 4 true)).currWaves_ ≤
          pW.MaxWave) :=
  ⟨by decide, ⟨4, true, fun _ => 5, 9, rfl⟩,
    getWavesPerSH_in_range pW (by decide) _ ⟨4, true, fun _ => 5, 9, rfl⟩⟩

/-- C2 (counterexample): the claim says `WaveLimiterManager::getWavesPerSH`
lazily creates the WaveLimiter for the device, but the header declares the
member `const` (line 125), so it cannot mutate `limiters_`.  At an enabled
manager with no per-device state the lazily-creating reading of the claim
inserts a limiter for device 7 and therefore disagrees with the `const`
member, which leaves the manager untouched. -/
theorem manager_getWavesPerSH_not_lazy :
    (WLManager.getWavesPerSHLazy pW mgrW 7).1 ≠ mgrW ∧
      WLManager.getWavesPerSHLazy pW mgrW 7 ≠
        (mgrW, WLManager.getWavesPerSH pW mgrW 7) := by
  decide

/-- C2 (amended): `getWavesPerSH(device)` returns the fixed override for
every device and every history of manager operations when `fixed_` is
non-zero; returns the safe default `MaxWave` when the manager is disabled;
and otherwise returns the current wave count of the device's limiter if one
exists and the safe default if not.  It creates no per-device state (the
header declares it `const`); lazy creation is performed by
`getProfilingCallback`, which always leaves an entry for the device. -/
theorem manager_getWavesPerSH_branches (p : Params) (m : WLManager)
    (ops : List MgrOp) (dev : Nat) :
    (m.fixed_ ≠ 0 →
      WLManager.getWavesPerSH p (applyOps p m ops) dev = m.fixed_) ∧
    ((applyOps p m ops).fixed_ = 0 → (applyOps p m ops).enable_ = false →
      WLManager.getWavesPerSH p (applyOps p m ops) dev = p.MaxWave) ∧
    ((m.getProfilingCallback p dev).limiters_.lookup dev).isSome = true ∧
    ((applyOps p m ops).fixed_ = 0 → (applyOps p m ops).enable_ = true →
      WLManager.getWavesPerSH p (applyOps p m ops) dev =
        ((applyOps p m ops).limiters_.lookup dev).elim p.MaxWave
          WaveLimiter.getWavesPerSH) := by
  refine ⟨?_, ?_, ?_, ?_⟩
  · intro hf
    unfold WLManager.getWavesPerSH
    rw [if_pos (by rw [applyOps_fixed]; exact hf), applyOps_fixed]
  · intro h0 hen
    unfold WLManager.getWavesPerSH
    rw [if_neg (by rw [h0]; exact fun hh => hh rfl), if_pos hen]
  · unfold WLManager.getProfilingCallback
    cases h : m.limiters_.lookup dev with
    | some s => simp [h]
    | none => simp [List.lookup]
  · intro h0 hen
    unfold WLManager.getWavesPerSH
    rw [if_neg (by rw [h0]; exact fun hh => hh rfl),
      if_neg (by rw [hen]; exact fun hh => nomatch hh)]

theorem manager_getWavesPerSH_branches_witness :
    ((mgrW.fixed_ ≠ 0 →
        WLManager.getWavesPerSH pW (applyOps pW mgrW [.getCallbackHandle 7]) 7 =
          mgrW.fixed_) ∧
      ((applyOps pW mgrW [.getCallbackHandle 7]).fixed_ = 0 →
        (applyOps pW mgrW [.getCallbackHandle 7]).enable_ = false →
        WLManager.getWavesPerSH pW (applyOps pW mgrW [.getCallbackHandle 7]) 7 =
          pW.MaxWave) ∧
      ((mgrW.getProfilingCallback pW 7).limiters_.lookup 7).isSome = true ∧
      ((applyOps pW mgrW [.getCallbackHandle 7]).fixed_ = 0 →
        (applyOps pW mgrW [.getCallbackHandle 7]).enable_ = true →
        WLManager.getWavesPerSH pW (applyOps pW mgrW [.getCallbackHandle 7]) 7 =
          ((applyOps pW mgrW [.getCallbackHandle 7]).limiters_.lookup 7).elim
            pW.MaxWave WaveLimiter.getWavesPerSH)) :=
  manager_getWavesPerSH_branches pW mgrW [.getCallbackHandle 7] 7

/-- C8: a controller constructed with `simdPerShaderArray = 0` disables
itself: every subsequent callback is a no-op, and `getWavesPerSH` still
returns the in-range safe default `MaxWave`.  (The model performs no
division at all, so no division by zero can occur.) -/
theorem zero_simd_disables (p : Params) (hok : p.Ok) (en : Bool)
    (g : Nat → Nat) (n : Nat) :
    (WaveLimiter.init p 0 en).enable_ = false ∧
    runStream p g n (WaveLimiter.init p 0 en) = WaveLimiter.init p 0 en ∧
    WaveLimiter.getWavesPerSH (runStream p g n (WaveLimiter.init p 0 en)) =
      p.MaxWave ∧
    1 ≤ WaveLimiter.getWavesPerSH (runStream p g n (WaveLimiter.init p 0 en)) ∧
    WaveLimiter.getWavesPerSH (runStream p g n (WaveLimiter.init p 0 en)) ≤
      p.MaxWave := by
  obtain ⟨hMW, hWU, hRC, hAC, hSC, hcap⟩ := hok
  have hen : (WaveLimiter.init p 0 en).enable_ = false := rfl
  have hfix := disabled_runStream p g n _ hen
  refine ⟨hen, hfix, ?_, ?_, ?_⟩
  · rw [hfix]; rfl
  · rw [hfix]; exact hMW
  · rw [hfix]; exact le_refl _

theorem zero_simd_disables_witness :
    pW.Ok ∧
      ((WaveLimiter.init pW 0 true).enable_ = false ∧
        runStream pW (fun _ => 3) 5 (WaveLimiter.init pW 0 true) =
          WaveLimiter.init pW 0 true ∧
        WaveLimiter.getWavesPerSH
            (runStream pW (fun _ => 3) 5 (WaveLimiter.init pW 0 true)) =
          pW.MaxWave ∧
        1 ≤ WaveLimiter.getWavesPerSH
            (runStream pW (fun _ => 3) 5 (WaveLimiter.init pW 0 true)) ∧
        WaveLimiter.getWavesPerSH
            (runStream pW (fun _ => 3) 5 (WaveLimiter.init pW 0 true)) ≤
          pW.MaxWave) :=
  ⟨by decide, zero_simd_disables pW (by decide) true (fun _ => 3) 5⟩

/-- C9: `WaveLimiterManager::enable(isCiPlus)` is idempotent — calling it
twice with the same argument leaves the manager in the same state (in
particular the same enabled/disabled state) as calling it once. -/
theorem manager_enable_idempotent (m : WLManager) (b : Bool) :
    WLManager.enable (WLManager.enable m b) b = WLManager.enable m b := by
  unfold WLManager.enable
  by_cases hf : m.fixed_ ≠ 0
  · simp [hf]
  · simp [hf]

/-- C10: the configuration collaborator treats unknown hardware as fatal:
`Settings::create` returns `false` (after `assert(0 && "Unknown ASIC
type!")`) exactly when the device target is not one of the recognized ASIC
types of the switch, and returns `true` for every recognized target. -/
theorem settings_create_success (t : CALtarget) :
    (Settings.create t).success = recognizedTarget t ∧
    (Settings.create .OTHER).success = false := by
  constructor
  · cases t <;> rfl
  · rfl

/-! ## Step characterization lemmas -/

theorem callback_WARMUP (p : Params) (d : Nat) (s : WLState)
    (hen : s.enable_ = true) (hst : s.state_ = .WARMUP) :
    callback p d s = warmupStep p { s with countAll_ := s.countAll_ + 1 } := by
  unfold callback
  rw [if_neg (by rw [hen]; exact fun hh => nomatch hh), if_pos hst]

theorem callback_ADAPT (p : Params) (d : Nat) (s : WLState)
    (hen : s.enable_ = true) (hst : s.state_ = .ADAPT) :
    callback p d s = adaptStep p { s with countAll_ := s.countAll_ + 1 } d := by
  unfold callback
  rw [if_neg (by rw [hen]; exact fun hh => nomatch hh),
    if_neg (by rw [hst]; exact fun hh => nomatch hh), if_pos hst]

theorem callback_RUN (p : Params) (d : Nat) (s : WLState)
    (hen : s.enable_ = true) (hst : s.state_ = .RUN) :
    callback p d s = runStep p { s with countAll_ := s.countAll_ + 1 } := by
  unfold callback
  rw [if_neg (by rw [hen]; exact fun hh => nomatch hh),
    if_neg (by rw [hst]; exact fun hh => nomatch hh),
    if_neg (by rw [hst]; exact fun hh => nomatch hh)]

theorem adaptStep_round (p : Params) (s : WLState) (d : Nat)
    (ht0 : ¬ s.trialWave_ = 0)
    (href : ¬ s.reference_.length < s.dynRunCount_)
    (htri : ¬ s.trial_.length + 1 < s.dynRunCount_) :
    adaptStep p s d = finishRound p { s with trial_ := s.trial_ ++ [d] } := by
  unfold adaptStep
  rw [if_neg ht0, if_neg href, if_neg htri]

theorem callback_round (p : Params) (s : WLState) (d : Nat)
    (hen : s.enable_ = true) (hst : s.state_ = .ADAPT)
    (ht0 : ¬ s.trialWave_ = 0)
    (href : ¬ s.reference_.length < s.dynRunCount_)
    (htri : ¬ s.trial_.length + 1 < s.dynRunCount_) :
    callback p d s = finishRound p (roundState s d) := by
  rw [callback_ADAPT p d s hen hst]
  exact adaptStep_round p { s with countAll_ := s.countAll_ + 1 } d ht0 href
    htri

/-- The two discontinuity outcomes of `finishRound`. -/
theorem finishRound_dsc (p : Params) (s : WLState)
    (hne : s.ratio_.isEmpty = false)
    (hdsc : p.DscThresh <
      Nat.dist (ratioOf s.reference_.sum s.trial_.sum) (s.ratio_.headD 0)) :
    finishRound p s =
      if p.DynRunCap ≤ s.dynRunCount_ then
        { s with state_ := .RUN
                 phaseCount_ := 0
                 discontinuous_ := true
                 reference_ := []
                 trial_ := []
                 ratio_ := []
                 bestWave_ := s.preAdaptWave_
                 waves_ := s.preAdaptWave_
                 currWaves_ := s.preAdaptWave_
                 trialWave_ := 0 }
      else
        { s with discontinuous_ := true
                 reference_ := []
                 trial_ := []
                 ratio_ := []
                 dynRunCount_ := min (2 * s.dynRunCount_) p.DynRunCap
                 currWaves_ := s.waves_ } := by
  unfold finishRound
  rw [if_neg (by rw [hne]; exact fun hh => nomatch hh), if_pos hdsc]

/-- A measured ratio beyond the dead zone means the trial buffer's total
duration was actually observed to be smaller than the reference buffer's. -/
theorem ratio_gt_sum_lt (sumRef sumTrial a : Nat)
    (h : 100 + a < ratioOf sumRef sumTrial) : sumTrial < sumRef := by
  unfold ratioOf at h
  by_cases hst : sumTrial = 0
  · rw [hst, Nat.div_zero] at h
    omega
  · have h2 : 0 < sumTrial := Nat.pos_of_ne_zero hst
    have h3 : 101 ≤ 100 * sumRef / sumTrial := by omega
    have h4 : 101 * sumTrial ≤ 100 * sumRef :=
      (Nat.le_div_iff_mul_le h2).mp h3
    omega

/-- C6: `dynRunCount_` never grows without bound — it stays at or below
`DynRunCap` in every reachable state and under every continuation — and when
a discontinuity is detected with `dynRunCount_` already at the cap, the
controller abandons adaptation: it enters RUN with `bestWaves` set back to
the pre-adaptation wave count, which equals the best wave count from before
the adaptation phase, so adaptation never leaves the system worse off than
doing nothing. -/
theorem dynRunCount_capped_failsafe (p : Params) (hok : p.Ok) (s : WLState)
    (hr : Reachable p s) (d : Nat)
    (hen : s.enable_ = true) (hst : s.state_ = .ADAPT)
    (ht0 : ¬ s.trialWave_ = 0)
    (href : ¬ s.reference_.length < s.dynRunCount_)
    (htri : ¬ s.trial_.length + 1 < s.dynRunCount_)
    (hne : s.ratio_.isEmpty = false)
    (hdsc : p.DscThresh <
      Nat.dist (ratioOf s.reference_.sum (s.trial_ ++ [d]).sum)
        (s.ratio_.headD 0))
    (hcap : p.DynRunCap ≤ s.dynRunCount_) :
    s.dynRunCount_ ≤ p.DynRunCap ∧
    (∀ g n, (runStream p g n s).dynRunCount_ ≤ p.DynRunCap) ∧
    (callback p d s).state_ = .RUN ∧
    (callback p d s).bestWave_ = s.preAdaptWave_ ∧
    (callback p d s).bestWave_ = s.bestWave_ ∧
    (callback p d s).dynRunCount_ = s.dynRunCount_ := by
  have hinv := reachable_inv p s hok hr
  have hne2 : (roundState s d).ratio_.isEmpty = false := hne
  have hdsc2 : p.DscThresh <
      Nat.dist (ratioOf (roundState s d).reference_.sum
        (roundState s d).trial_.sum) ((roundState s d).ratio_.headD 0) := hdsc
  have hcap2 : p.DynRunCap ≤ (roundState s d).dynRunCount_ := hcap
  rw [callback_round p s d hen hst ht0 href htri,
    finishRound_dsc p (roundState s d) hne2 hdsc2, if_pos hcap2]
  refine ⟨hinv.dyn_hi,
    fun g n => (inv_runStream p hok g n s hinv).dyn_hi, rfl, rfl, ?_, rfl⟩
  show s.preAdaptWave_ = s.bestWave_
  exact hinv.adapt_pre hst

theorem dynRunCount_capped_failsafe_witness :
    (pC.Ok ∧ Reachable pC sCap ∧ sCap.enable_ = true ∧
      sCap.state_ = .ADAPT ∧ ¬ sCap.trialWave_ = 0 ∧
      ¬ sCap.reference_.length < sCap.dynRunCount_ ∧
      ¬ sCap.trial_.length + 1 < sCap.dynRunCount_ ∧
      sCap.ratio_.isEmpty = false ∧
      pC.DscThresh <
        Nat.dist (ratioOf sCap.reference_.sum (sCap.trial_ ++ [1]).sum)
          (sCap.ratio_.headD 0) ∧
      pC.DynRunCap ≤ sCap.dynRunCount_) ∧
    (sCap.dynRunCount_ ≤ pC.DynRunCap ∧
      (∀ g n, (runStream pC g n sCap).dynRunCount_ ≤ pC.DynRunCap) ∧
      (callback pC 1 sCap).state_ = .RUN ∧
      (callback pC 1 sCap).bestWave_ = sCap.preAdaptWave_ ∧
      (callback pC 1 sCap).bestWave_ = sCap.bestWave_ ∧
      (callback pC 1 sCap).dynRunCount_ = sCap.dynRunCount_) :=
  ⟨⟨by decide, ⟨4, true, gC, 12, rfl⟩, by decide, by decide, by decide,
      by decide, by decide, by decide, by decide, by decide⟩,
    dynRunCount_capped_failsafe pC (by decide) sCap ⟨4, true, gC, 12, rfl⟩ 1
      (by decide) (by decide) (by decide) (by decide) (by decide) (by decide)
      (by decide) (by decide)⟩

/-- C5 (counterexample): the claim says that whenever successive ratios
disagree by more than `DscThresh` the controller grows `dynamicRunCount`.
At the reachable state `sCap` a discontinuity is detected while
`dynRunCount_` is already at the growth cap, and the controller does not
grow it — it abandons adaptation instead (the fail-safe of C6). -/
theorem discontinuity_at_cap_no_growth :
    sCap.state_ = .ADAPT ∧
    sCap.ratio_.isEmpty = false ∧
    pC.DscThresh <
      Nat.dist (ratioOf sCap.reference_.sum (sCap.trial_ ++ [1]).sum)
        (sCap.ratio_.headD 0) ∧
    (callback pC 1 sCap).discontinuous_ = true ∧
    ¬ sCap.dynRunCount_ < (callback pC 1 sCap).dynRunCount_ := by
  decide

/-- C5 (amended): whenever successive ratios disagree by more than
`DscThresh` while `dynRunCount_` is still below the growth cap, the
controller sets `discontinuous_`, clears both buffers, strictly grows
`dynRunCount_`, stays in ADAPT, and commits no wave-count change (neither
`waves_` nor `bestWave_` changes); when the discontinuity occurs at the cap
the controller instead abandons adaptation (fail-safe, claim C6). -/
theorem discontinuity_below_cap (p : Params) (hok : p.Ok) (s : WLState)
    (hr : Reachable p s) (d : Nat)
    (hen : s.enable_ = true) (hst : s.state_ = .ADAPT)
    (ht0 : ¬ s.trialWave_ = 0)
    (href : ¬ s.reference_.length < s.dynRunCount_)
    (htri : ¬ s.trial_.length + 1 < s.dynRunCount_)
    (hne : s.ratio_.isEmpty = false)
    (hdsc : p.DscThresh <
      Nat.dist (ratioOf s.reference_.sum (s.trial_ ++ [d]).sum)
        (s.ratio_.headD 0))
    (hbelow : s.dynRunCount_ < p.DynRunCap) :
    (callback p d s).discontinuous_ = true ∧
    (callback p d s).reference_ = [] ∧
    (callback p d s).trial_ = [] ∧
    s.dynRunCount_ < (callback p d s).dynRunCount_ ∧
    (callback p d s).waves_ = s.waves_ ∧
    (callback p d s).bestWave_ = s.bestWave_ ∧
    (callback p d s).state_ = .ADAPT := by
  have hinv := reachable_inv p s hok hr
  have hdyn1 : 1 ≤ s.dynRunCount_ := by
    have h1 := hinv.dyn_lo
    have h2 := hok.2.2.2.2.1
    omega
  have hne2 : (roundState s d).ratio_.isEmpty = false := hne
  have hdsc2 : p.DscThresh <
      Nat.dist (ratioOf (roundState s d).reference_.sum
        (roundState s d).trial_.sum) ((roundState s d).ratio_.headD 0) := hdsc
  have hcap2 : ¬ p.DynRunCap ≤ (roundState s d).dynRunCount_ := by
    show ¬ p.DynRunCap ≤ s.dynRunCount_
    omega
  rw [callback_round p s d hen hst ht0 href htri,
    finishRound_dsc p (roundState s d) hne2 hdsc2, if_neg hcap2]
  refine ⟨rfl, rfl, rfl, ?_, rfl, rfl, hst⟩
  show s.dynRunCount_ < min (2 * s.dynRunCount_) p.DynRunCap
  omega

theorem discontinuity_below_cap_witness :
    (pC.Ok ∧ Reachable pC sGrow ∧ sGrow.enable_ = true ∧
      sGrow.state_ = .ADAPT ∧ ¬ sGrow.trialWave_ = 0 ∧
      ¬ sGrow.reference_.length < sGrow.dynRunCount_ ∧
      ¬ sGrow.trial_.length + 1 < sGrow.dynRunCount_ ∧
      sGrow.ratio_.isEmpty = false ∧
      pC.DscThresh <
        Nat.dist (ratioOf sGrow.reference_.sum (sGrow.trial_ ++ [1]).sum)
          (sGrow.ratio_.headD 0) ∧
      sGrow.dynRunCount_ < pC.DynRunCap) ∧
    ((callback pC 1 sGrow).discontinuous_ = true ∧
      (callback pC 1 sGrow).reference_ = [] ∧
      (callback pC 1 sGrow).trial_ = [] ∧
      sGrow.dynRunCount_ < (callback pC 1 sGrow).dynRunCount_ ∧
      (callback pC 1 sGrow).waves_ = sGrow.waves_ ∧
      (callback pC 1 sGrow).bestWave_ = sGrow.bestWave_ ∧
      (callback pC 1 sGrow).state_ = .ADAPT) :=
  ⟨⟨by decide, ⟨4, true, gC, 4, rfl⟩, by decide, by decide, by decide,
      by decide, by decide, by decide, by decide, by decide⟩,
    discontinuity_below_cap pC (by decide) sGrow ⟨4, true, gC, 4, rfl⟩ 1
      (by decide) (by decide) (by decide) (by decide) (by decide) (by decide)
      (by decide) (by decide)⟩

/-! ## Remaining branch lemmas for the ADAPT step -/

theorem warmupStep_best (p : Params) (s : WLState) :
    (warmupStep p s).bestWave_ = s.bestWave_ := by
  unfold warmupStep; split <;> rfl

theorem warmupStep_waves (p : Params) (s : WLState) :
    (warmupStep p s).waves_ = s.waves_ ∨ (warmupStep p s).waves_ = s.bestWave_ := by
  unfold warmupStep
  split
  · exact Or.inl rfl
  · exact Or.inr rfl

theorem runStep_frozen (p : Params) (s : WLState) :
    (runStep p s).bestWave_ = s.bestWave_ ∧ (runStep p s).waves_ = s.waves_ := by
  unfold runStep; split <;> exact ⟨rfl, rfl⟩

theorem adaptStep_trial0 (p : Params) (s : WLState) (d : Nat)
    (ht0 : s.trialWave_ = 0) :
    adaptStep p s d =
      { s with state_ := .RUN
               phaseCount_ := 0
               discontinuous_ := false
               reference_ := []
               trial_ := []
               ratio_ := []
               bestWave_ := s.waves_
               currWaves_ := s.waves_ } := by
  unfold adaptStep; rw [if_pos ht0]

theorem adaptStep_ref (p : Params) (s : WLState) (d : Nat)
    (ht0 : ¬ s.trialWave_ = 0) (href : s.reference_.length < s.dynRunCount_) :
    adaptStep p s d =
      if (s.reference_ ++ [d]).length < s.dynRunCount_ then
        { s with reference_ := s.reference_ ++ [d], currWaves_ := s.waves_ }
      else
        { s with reference_ := s.reference_ ++ [d],
                 currWaves_ := s.trialWave_ } := by
  unfold adaptStep; rw [if_neg ht0, if_pos href]

theorem adaptStep_tri (p : Params) (s : WLState) (d : Nat)
    (ht0 : ¬ s.trialWave_ = 0) (href : ¬ s.reference_.length < s.dynRunCount_)
    (htri : s.trial_.length + 1 < s.dynRunCount_) :
    adaptStep p s d =
      { s with trial_ := s.trial_ ++ [d], currWaves_ := s.trialWave_ } := by
  unfold adaptStep; rw [if_neg ht0, if_neg href, if_pos htri]

theorem finishRound_first (p : Params) (s : WLState)
    (hemp : s.ratio_.isEmpty = true) :
    finishRound p s =
      { s with ratio_ := [ratioOf s.reference_.sum s.trial_.sum],
               reference_ := [], trial_ := [],
               currWaves_ := s.waves_ } := by
  unfold finishRound; rw [if_pos hemp]

/-- The two stable-signal outcomes of `finishRound`. -/
theorem finishRound_decision (p : Params) (s : WLState)
    (hne : s.ratio_.isEmpty = false)
    (hdsc : ¬ p.DscThresh <
      Nat.dist (ratioOf s.reference_.sum s.trial_.sum) (s.ratio_.headD 0)) :
    finishRound p s =
      if p.AdaptCount ≤ s.adaptRounds_ + 1 ∨ s.trialWave_ ≤ 1 then
        { s with state_ := .RUN
                 phaseCount_ := 0
                 reference_ := []
                 trial_ := []
                 ratio_ := []
                 discontinuous_ := false
                 waves_ := adoptDecision p (ratioOf s.reference_.sum s.trial_.sum) s
                 bestWave_ := adoptDecision p (ratioOf s.reference_.sum s.trial_.sum) s
                 currWaves_ := adoptDecision p (ratioOf s.reference_.sum s.trial_.sum) s
                 trialWave_ := 0
                 adaptRounds_ := s.adaptRounds_ + 1 }
      else
        { s with reference_ := []
                 trial_ := []
                 ratio_ := []
                 waves_ := adoptDecision p (ratioOf s.reference_.sum s.trial_.sum) s
                 currWaves_ := adoptDecision p (ratioOf s.reference_.sum s.trial_.sum) s
                 trialWave_ := s.trialWave_ - 1
                 adaptRounds_ := s.adaptRounds_ + 1 } := by
  unfold finishRound
  rw [if_neg (by rw [hne]; exact fun hh => nomatch hh), if_neg hdsc]

/-- C7: `bestWaves` changes only at the end of a successful adaptation
phase, and only to a wave count backed by measurement: either the reference
that won the adaptation (itself the product of earlier observed adoptions)
or a final trial whose measured buffer total was observed below the
reference's, beyond the dead zone.  Likewise, during ADAPT the committed
reference `waves_` changes only to the trial wave count and only when the
measured ratio of the actual buffers exceeds the dead zone — never
speculatively. -/
theorem bestWave_observed_only (p : Params) (hok : p.Ok) (s : WLState)
    (d : Nat) (hr : Reachable p s) :
    ((callback p d s).bestWave_ ≠ s.bestWave_ →
      s.state_ = .ADAPT ∧ (callback p d s).state_ = .RUN ∧
      ((callback p d s).bestWave_ = s.waves_ ∨
        ((callback p d s).bestWave_ = s.trialWave_ ∧
          100 + p.AbandonThresh <
            ratioOf s.reference_.sum (s.trial_ ++ [d]).sum ∧
          (s.trial_ ++ [d]).sum < s.reference_.sum))) ∧
    ((callback p d s).state_ = .ADAPT → (callback p d s).waves_ ≠ s.waves_ →
      (callback p d s).waves_ = s.trialWave_ ∧
      100 + p.AbandonThresh < ratioOf s.reference_.sum (s.trial_ ++ [d]).sum ∧
      (s.trial_ ++ [d]).sum < s.reference_.sum) := by
  have hinv := reachable_inv p s hok hr
  by_cases hen : s.enable_ = false
  · rw [disabled_callback p d s hen]
    exact ⟨fun h => absurd rfl h, fun _ h => absurd rfl h⟩
  · have hen2 : s.enable_ = true := by
      cases hb : s.enable_
      · exact absurd hb hen
      · rfl
    cases hst : s.state_ with
    | WARMUP =>
        rw [callback_WARMUP p d s hen2 hst]
        constructor
        · intro h
          exact absurd (warmupStep_best p _) h
        · intro _ h
          rcases warmupStep_waves p
              { s with countAll_ := s.countAll_ + 1 } with hw | hw
          · exact absurd hw h
          · have hwb : s.waves_ = s.bestWave_ :=
              hinv.nonadapt_waves (by rw [hst]; exact fun hh => nomatch hh)
            exact absurd (hw.trans hwb.symm) h
    | RUN =>
        rw [callback_RUN p d s hen2 hst]
        exact ⟨fun h => absurd (runStep_frozen p _).1 h,
          fun _ h => absurd (runStep_frozen p _).2 h⟩
    | ADAPT =>
        by_cases ht0 : s.trialWave_ = 0
        · rw [callback_ADAPT p d s hen2 hst,
            adaptStep_trial0 p { s with countAll_ := s.countAll_ + 1 } d ht0]
          have hwb : s.waves_ = s.bestWave_ := hinv.adapt_trial0 hst ht0
          exact ⟨fun h => absurd hwb h, fun hA => nomatch hA⟩
        · by_cases href : s.reference_.length < s.dynRunCount_
          · rw [callback_ADAPT p d s hen2 hst,
              adaptStep_ref p { s with countAll_ := s.countAll_ + 1 } d ht0
                href]
            by_cases h2 : (s.reference_ ++ [d]).length < s.dynRunCount_
            · rw [if_pos h2]
              exact ⟨fun h => absurd rfl h, fun _ h => absurd rfl h⟩
            · rw [if_neg h2]
              exact ⟨fun h => absurd rfl h, fun _ h => absurd rfl h⟩
          · by_cases htri : s.trial_.length + 1 < s.dynRunCount_
            · rw [callback_ADAPT p d s hen2 hst,
                adaptStep_tri p { s with countAll_ := s.countAll_ + 1 } d ht0
                  href htri]
              exact ⟨fun h => absurd rfl h, fun _ h => absurd rfl h⟩
            · rw [callback_round p s d hen2 hst ht0 href htri]
              by_cases hemp : (roundState s d).ratio_.isEmpty = true
              · rw [finishRound_first p (roundState s d) hemp]
                exact ⟨fun h => absurd rfl h, fun _ h => absurd rfl h⟩
              · have hne2 : (roundState s d).ratio_.isEmpty = false := by
                  cases hb : (roundState s d).ratio_.isEmpty
                  · rfl
                  · exact absurd hb hemp
                by_cases hdsc : p.DscThresh <
                    Nat.dist (ratioOf (roundState s d).reference_.sum
                      (roundState s d).trial_.sum)
                      ((roundState s d).ratio_.headD 0)
                · rw [finishRound_dsc p (roundState s d) hne2 hdsc]
                  by_cases hcap : p.DynRunCap ≤ (roundState s d).dynRunCount_
                  · rw [if_pos hcap]
                    have hpre : s.preAdaptWave_ = s.bestWave_ :=
                      hinv.adapt_pre hst
                    exact ⟨fun h => absurd hpre h, fun hA => nomatch hA⟩
                  · rw [if_neg hcap]
                    exact ⟨fun h => absurd rfl h, fun _ h => absurd rfl h⟩
                · rw [finishRound_decision p (roundState s d) hne2 hdsc]
                  by_cases hfin : p.AdaptCount ≤
                      (roundState s d).adaptRounds_ + 1 ∨
                      (roundState s d).trialWave_ ≤ 1
                  · rw [if_pos hfin]
                    refine ⟨fun h => ⟨rfl, rfl, ?_⟩, fun hA => nomatch hA⟩
                    by_cases had : 100 + p.AbandonThresh <
                        ratioOf (roundState s d).reference_.sum
                          (roundState s d).trial_.sum
                    · refine Or.inr ⟨?_, had, ratio_gt_sum_lt _ _ _ had⟩
                      show adoptDecision p
                        (ratioOf (roundState s d).reference_.sum
                          (roundState s d).trial_.sum) (roundState s d) =
                        s.trialWave_
                      unfold adoptDecision
                      rw [if_pos had]
                      rfl
                    · refine Or.inl ?_
                      show adoptDecision p
                        (ratioOf (roundState s d).reference_.sum
                          (roundState s d).trial_.sum) (roundState s d) =
                        s.waves_
                      unfold adoptDecision
                      rw [if_neg had]
                      rfl
                  · rw [if_neg hfin]
                    refine ⟨fun h => absurd rfl h, fun _ h => ?_⟩
                    by_cases had : 100 + p.AbandonThresh <
                        ratioOf (roundState s d).reference_.sum
                          (roundState s d).trial_.sum
                    · refine ⟨?_, had, ratio_gt_sum_lt _ _ _ had⟩
                      show adoptDecision p
                        (ratioOf (roundState s d).reference_.sum
                          (roundState s d).trial_.sum) (roundState s d) =
                        s.trialWave_
                      unfold adoptDecision
                      rw [if_pos had]
                      rfl
                    · exact absurd
                        (show adoptDecision p
                          (ratioOf (roundState s d).reference_.sum
                            (roundState s d).trial_.sum) (roundState s d) =
                          s.waves_ by
                            unfold adoptDecision; rw [if_neg had]; rfl) h

theorem bestWave_observed_only_witness :
    pW.Ok ∧ Reachable pW (WaveLimiter.init pW 4 true) ∧
    (((callback pW 5 (WaveLimiter.init pW 4 true)).bestWave_ ≠
        (WaveLimiter.init pW 4 true).bestWave_ →
      (WaveLimiter.init pW 4 true).state_ = .ADAPT ∧
      (callback pW 5 (WaveLimiter.init pW 4 true)).state_ = .RUN ∧
      ((callback pW 5 (WaveLimiter.init pW 4 true)).bestWave_ =
          (WaveLimiter.init pW 4 true).waves_ ∨
        ((callback pW 5 (WaveLimiter.init pW 4 true)).bestWave_ =
            (WaveLimiter.init pW 4 true).trialWave_ ∧
          100 + pW.AbandonThresh <
            ratioOf (WaveLimiter.init pW 4 true).reference_.sum
              ((WaveLimiter.init pW 4 true).trial_ ++ [5]).sum ∧
          ((WaveLimiter.init pW 4 true).trial_ ++ [5]).sum <
            (WaveLimiter.init pW 4 true).reference_.sum))) ∧
    ((callback pW 5 (WaveLimiter.init pW 4 true)).state_ = .ADAPT →
      (callback pW 5 (WaveLimiter.init pW 4 true)).waves_ ≠
        (WaveLimiter.init pW 4 true).waves_ →
      (callback pW 5 (WaveLimiter.init pW 4 true)).waves_ =
        (WaveLimiter.init pW 4 true).trialWave_ ∧
      100 + pW.AbandonThresh <
        ratioOf (WaveLimiter.init pW 4 true).reference_.sum
          ((WaveLimiter.init pW 4 true).trial_ ++ [5]).sum ∧
      ((WaveLimiter.init pW 4 true).trial_ ++ [5]).sum <
        (WaveLimiter.init pW 4 true).reference_.sum)) :=
  ⟨by decide, ⟨4, true, fun _ => 0, 0, rfl⟩,
    bestWave_observed_only pW (by decide) (WaveLimiter.init pW 4 true) 5
      ⟨4, true, fun _ => 0, 0, rfl⟩⟩

/-! ## Phase-step lemmas for the state machine -/

theorem warmupStep_stay (p : Params) (s : WLState)
    (hc : s.phaseCount_ + 1 < p.WarmUpCount) :
    warmupStep p s = { s with phaseCount_ := s.phaseCount_ + 1 } := by
  unfold warmupStep; rw [if_pos hc]

theorem warmupStep_exit (p : Params) (s : WLState)
    (hc : ¬ s.phaseCount_ + 1 < p.WarmUpCount) :
    warmupStep p s =
      { s with state_ := .ADAPT
               phaseCount_ := 0
               waves_ := s.bestWave_
               currWaves_ := s.bestWave_
               preAdaptWave_ := s.bestWave_
               trialWave_ := s.bestWave_ - 1
               reference_ := []
               trial_ := []
               ratio_ := []
               discontinuous_ := false
               dynRunCount_ := p.SampleCount
               adaptRounds_ := 0 } := by
  unfold warmupStep; rw [if_neg hc]

theorem runStep_stay (p : Params) (s : WLState)
    (hc : s.phaseCount_ + 1 < p.RunCount) :
    runStep p s = { s with phaseCount_ := s.phaseCount_ + 1 } := by
  unfold runStep; rw [if_pos hc]

theorem runStep_exit (p : Params) (s : WLState)
    (hc : ¬ s.phaseCount_ + 1 < p.RunCount) :
    runStep p s = { s with state_ := .WARMUP, phaseCount_ := 0 } := by
  unfold runStep; rw [if_neg hc]

theorem warmupStep_enable (p : Params) (s : WLState) :
    (warmupStep p s).enable_ = s.enable_ := by
  unfold warmupStep; split <;> rfl

theorem runStep_enable (p : Params) (s : WLState) :
    (runStep p s).enable_ = s.enable_ := by
  unfold runStep; split <;> rfl

theorem finishRound_enable (p : Params) (s : WLState) :
    (finishRound p s).enable_ = s.enable_ := by
  unfold finishRound; split_ifs <;> rfl

theorem adaptStep_enable (p : Params) (s : WLState) (d : Nat) :
    (adaptStep p s d).enable_ = s.enable_ := by
  unfold adaptStep
  split_ifs <;> first
    | rfl
    | exact finishRound_enable p _

theorem callback_enable (p : Params) (d : Nat) (s : WLState) :
    (callback p d s).enable_ = s.enable_ := by
  unfold callback
  split_ifs with h1 h2 h3
  · rfl
  · exact warmupStep_enable p _
  · exact adaptStep_enable p _ d
  · exact runStep_enable p _

theorem finishRound_state (p : Params) (s : WLState) :
    (finishRound p s).state_ = s.state_ ∨ (finishRound p s).state_ = .RUN := by
  unfold finishRound
  split_ifs
  · exact Or.inl rfl
  · exact Or.inr rfl
  · exact Or.inl rfl
  · exact Or.inr rfl
  · exact Or.inl rfl

theorem adaptStep_state (p : Params) (s : WLState) (d : Nat) :
    (adaptStep p s d).state_ = s.state_ ∨ (adaptStep p s d).state_ = .RUN := by
  unfold adaptStep
  split_ifs
  · exact Or.inr rfl
  · exact Or.inl rfl
  · exact Or.inl rfl
  · exact Or.inl rfl
  · exact finishRound_state p _

theorem runStream_add (p : Params) (g : Nat → Nat) (m n : Nat) (s : WLState) :
    runStream p g (m + n) s =
      runStream p (fun k => g (k + m)) n (runStream p g m s) := by
  induction m generalizing g s with
  | zero => rw [Nat.zero_add]; rfl
  | succ m ih =>
      have hmn : m + 1 + n = (m + n) + 1 := by omega
      rw [hmn, runStream_succ, runStream_succ, ih]
      rfl

/-- Iterating callbacks inside the WARMUP phase: as long as the warm-up
count is not exhausted, the state stays WARMUP and no wave-count field
changes; only the counters advance. -/
theorem runStream_warmup (p : Params) (g : Nat → Nat) (k : Nat) (s : WLState)
    (hen : s.enable_ = true) (hst : s.state_ = .WARMUP)
    (hk : s.phaseCount_ + k < p.WarmUpCount) :
    (runStream p g k s).state_ = .WARMUP ∧
    (runStream p g k s).currWaves_ = s.currWaves_ ∧
    (runStream p g k s).phaseCount_ = s.phaseCount_ + k ∧
    (runStream p g k s).bestWave_ = s.bestWave_ ∧
    (runStream p g k s).waves_ = s.waves_ ∧
    (runStream p g k s).enable_ = true := by
  induction k generalizing g s with
  | zero => exact ⟨hst, rfl, rfl, rfl, rfl, hen⟩
  | succ k ih =>
      rw [runStream_succ]
      have h1 : s.phaseCount_ + 1 < p.WarmUpCount := by omega
      rw [callback_WARMUP p (g 0) s hen hst,
        warmupStep_stay p { s with countAll_ := s.countAll_ + 1 } h1]
      obtain ⟨ha, hb, hc, hd, he, hf⟩ :=
        ih (fun j => g (j + 1))
          { s with countAll_ := s.countAll_ + 1,
                   phaseCount_ := s.phaseCount_ + 1 }
          hen hst (show s.phaseCount_ + 1 + k < p.WarmUpCount by omega)
      refine ⟨ha, hb, ?_, hd, he, hf⟩
      rw [hc]
      show s.phaseCount_ + 1 + k = s.phaseCount_ + (k + 1)
      omega

/-- Iterating callbacks inside the RUN phase: as long as the run count is
not exhausted, the state stays RUN and no wave-count field changes. -/
theorem runStream_run (p : Params) (g : Nat → Nat) (k : Nat) (s : WLState)
    (hen : s.enable_ = true) (hst : s.state_ = .RUN)
    (hk : s.phaseCount_ + k < p.RunCount) :
    (runStream p g k s).state_ = .RUN ∧
    (runStream p g k s).currWaves_ = s.currWaves_ ∧
    (runStream p g k s).phaseCount_ = s.phaseCount_ + k ∧
    (runStream p g k s).bestWave_ = s.bestWave_ ∧
    (runStream p g k s).waves_ = s.waves_ ∧
    (runStream p g k s).enable_ = true := by
  induction k generalizing g s with
  | zero => exact ⟨hst, rfl, rfl, rfl, rfl, hen⟩
  | succ k ih =>
      rw [runStream_succ]
      have h1 : s.phaseCount_ + 1 < p.RunCount := by omega
      rw [callback_RUN p (g 0) s hen hst,
        runStep_stay p { s with countAll_ := s.countAll_ + 1 } h1]
      obtain ⟨ha, hb, hc, hd, he, hf⟩ :=
        ih (fun j => g (j + 1))
          { s with countAll_ := s.countAll_ + 1,
                   phaseCount_ := s.phaseCount_ + 1 }
          hen hst (show s.phaseCount_ + 1 + k < p.RunCount by omega)
      refine ⟨ha, hb, ?_, hd, he, hf⟩
      rw [hc]
      show s.phaseCount_ + 1 + k = s.phaseCount_ + (k + 1)
      omega

/-- Every callback that keeps an enabled controller in ADAPT strictly
decreases `adaptMeasure`: the ADAPT phase always terminates. -/
theorem adapt_decrease (p : Params) (hok : p.Ok) (s : WLState) (d : Nat)
    (hinv : Inv p s) (hen : s.enable_ = true) (hst : s.state_ = .ADAPT)
    (hA : (callback p d s).state_ = .ADAPT) :
    adaptMeasure p (callback p d s) < adaptMeasure p s := by
  have hdynhi := hinv.dyn_hi
  have htlen := hinv.tri_len
  have hrlen := hinv.ref_len
  have hdyn1 : 1 ≤ s.dynRunCount_ := by
    have h1 := hinv.dyn_lo
    have h2 := hok.2.2.2.2.1
    omega
  by_cases ht0 : s.trialWave_ = 0
  · rw [callback_ADAPT p d s hen hst,
      adaptStep_trial0 p { s with countAll_ := s.countAll_ + 1 } d ht0] at hA
    exact absurd hA (by exact fun hh => nomatch hh)
  · by_cases href : s.reference_.length < s.dynRunCount_
    · rw [callback_ADAPT p d s hen hst,
        adaptStep_ref p { s with countAll_ := s.countAll_ + 1 } d ht0 href]
      by_cases h2 : (s.reference_ ++ [d]).length < s.dynRunCount_
      · rw [if_pos h2]
        show (4 * p.DynRunCap + 2) *
              ((p.DynRunCap - s.dynRunCount_) +
                (p.AdaptCount - s.adaptRounds_)) +
            (2 * p.DynRunCap + 1) * (1 - s.ratio_.length) +
            (2 * s.dynRunCount_ -
              ((s.reference_ ++ [d]).length + s.trial_.length)) <
          adaptMeasure p s
        unfold adaptMeasure
        simp only [List.length_append, List.length_singleton]
        omega
      · rw [if_neg h2]
        show (4 * p.DynRunCap + 2) *
              ((p.DynRunCap - s.dynRunCount_) +
                (p.AdaptCount - s.adaptRounds_)) +
            (2 * p.DynRunCap + 1) * (1 - s.ratio_.length) +
            (2 * s.dynRunCount_ -
              ((s.reference_ ++ [d]).length + s.trial_.length)) <
          adaptMeasure p s
        unfold adaptMeasure
        simp only [List.length_append, List.length_singleton]
        omega
    · by_cases htri : s.trial_.length + 1 < s.dynRunCount_
      · rw [callback_ADAPT p d s hen hst,
          adaptStep_tri p { s with countAll_ := s.countAll_ + 1 } d ht0 href
            htri]
        show (4 * p.DynRunCap + 2) *
              ((p.DynRunCap - s.dynRunCount_) +
                (p.AdaptCount - s.adaptRounds_)) +
            (2 * p.DynRunCap + 1) * (1 - s.ratio_.length) +
            (2 * s.dynRunCount_ -
              (s.reference_.length + (s.trial_ ++ [d]).length)) <
          adaptMeasure p s
        unfold adaptMeasure
        simp only [List.length_append, List.length_singleton]
        omega
      · rw [callback_round p s d hen hst ht0 href htri] at hA ⊢
        by_cases hemp : (roundState s d).ratio_.isEmpty = true
        · rw [finishRound_first p (roundState s d) hemp]
          have hemp2 : s.ratio_.isEmpty = true := hemp
          have hlen0 : s.ratio_.length = 0 := by
            cases hl : s.ratio_ with
            | nil => rfl
            | cons a t => rw [hl] at hemp2; exact nomatch hemp2
          show (4 * p.DynRunCap + 2) *
                ((p.DynRunCap - s.dynRunCount_) +
                  (p.AdaptCount - s.adaptRounds_)) +
              (2 * p.DynRunCap + 1) * (1 - 1) +
              (2 * s.dynRunCount_ - (0 + 0)) <
            adaptMeasure p s
          unfold adaptMeasure
          rw [hlen0]
          simp only [Nat.sub_self, Nat.mul_zero, Nat.sub_zero, Nat.mul_one]
          omega
        · have hne2 : s.ratio_.isEmpty = false := by
            cases hb : s.ratio_.isEmpty
            · rfl
            · exact absurd hb hemp
          have hlen1 : s.ratio_.length = 1 := by
            have hratl := hinv.ratio_len
            cases hl : s.ratio_ with
            | nil => rw [hl] at hne2; exact nomatch hne2
            | cons a t =>
                rw [hl] at hratl
                simp only [List.length_cons] at hratl ⊢
                omega
          by_cases hdsc : p.DscThresh <
              Nat.dist (ratioOf (roundState s d).reference_.sum
                (roundState s d).trial_.sum) ((roundState s d).ratio_.headD 0)
          · rw [finishRound_dsc p (roundState s d) hne2 hdsc] at hA ⊢
            by_cases hcap : p.DynRunCap ≤ (roundState s d).dynRunCount_
            · rw [if_pos hcap] at hA
              exact absurd hA (by exact fun hh => nomatch hh)
            · rw [if_neg hcap]
              have hbelow : ¬ p.DynRunCap ≤ s.dynRunCount_ := hcap
              show (4 * p.DynRunCap + 2) *
                    ((p.DynRunCap - min (2 * s.dynRunCount_) p.DynRunCap) +
                      (p.AdaptCount - s.adaptRounds_)) +
                  (2 * p.DynRunCap + 1) * (1 - 0) +
                  (2 * min (2 * s.dynRunCount_) p.DynRunCap - (0 + 0)) <
                adaptMeasure p s
              unfold adaptMeasure
              have hfac :
                  (p.DynRunCap - min (2 * s.dynRunCount_) p.DynRunCap) +
                      (p.AdaptCount - s.adaptRounds_) + 1 ≤
                    (p.DynRunCap - s.dynRunCount_) +
                      (p.AdaptCount - s.adaptRounds_) := by
                omega
              have hmul := Nat.mul_le_mul_left (4 * p.DynRunCap + 2) hfac
              rw [Nat.mul_add, Nat.mul_one] at hmul
              rw [hlen1]
              simp only [Nat.sub_self, Nat.mul_zero, Nat.sub_zero,
                Nat.mul_one]
              omega
          · rw [finishRound_decision p (roundState s d) hne2 hdsc] at hA ⊢
            by_cases hfin : p.AdaptCount ≤ (roundState s d).adaptRounds_ + 1 ∨
                (roundState s d).trialWave_ ≤ 1
            · rw [if_pos hfin] at hA
              exact absurd hA (by exact fun hh => nomatch hh)
            · rw [if_neg hfin]
              have hrounds : s.adaptRounds_ < p.AdaptCount :=
                hinv.adapt_rounds hst
              show (4 * p.DynRunCap + 2) *
                    ((p.DynRunCap - s.dynRunCount_) +
                      (p.AdaptCount - (s.adaptRounds_ + 1))) +
                  (2 * p.DynRunCap + 1) * (1 - 0) +
                  (2 * s.dynRunCount_ - (0 + 0)) <
                adaptMeasure p s
              unfold adaptMeasure
              have hfac :
                  (p.DynRunCap - s.dynRunCount_) +
                      (p.AdaptCount - (s.adaptRounds_ + 1)) + 1 ≤
                    (p.DynRunCap - s.dynRunCount_) +
                      (p.AdaptCount - s.adaptRounds_) := by
                omega
              have hmul := Nat.mul_le_mul_left (4 * p.DynRunCap + 2) hfac
              rw [Nat.mul_add, Nat.mul_one] at hmul
              rw [hlen1]
              simp only [Nat.sub_self, Nat.mul_zero, Nat.sub_zero,
                Nat.mul_one]
              omega

theorem toWarmupBound_RUN (p : Params) (s : WLState)
    (hst : s.state_ = .RUN) :
    toWarmupBound p s = p.RunCount - s.phaseCount_ := by
  unfold toWarmupBound
  rw [if_neg (by rw [hst]; exact fun hh => nomatch hh),
    if_neg (by rw [hst]; exact fun hh => nomatch hh)]

theorem toWarmupBound_ADAPT (p : Params) (s : WLState)
    (hst : s.state_ = .ADAPT) :
    toWarmupBound p s = adaptMeasure p s + 1 + p.RunCount := by
  unfold toWarmupBound
  rw [if_neg (by rw [hst]; exact fun hh => nomatch hh), if_pos hst]

/-- From every enabled state outside WARMUP, every continuation of measured
durations brings the controller back to WARMUP within `toWarmupBound`
callbacks. -/
theorem eventually_warmup (p : Params) (hok : p.Ok) :
    ∀ N s, toWarmupBound p s ≤ N → ∀ g : Nat → Nat, Inv p s →
      s.enable_ = true → s.state_ ≠ .WARMUP →
      ∃ n, 0 < n ∧ n ≤ toWarmupBound p s ∧
        (runStream p g n s).state_ = .WARMUP := by
  intro N
  induction N with
  | zero =>
      intro s hb g hinv hen hne
      cases hstate : s.state_ with
      | WARMUP => exact absurd hstate hne
      | ADAPT =>
          rw [toWarmupBound_ADAPT p s hstate] at hb
          omega
      | RUN =>
          rw [toWarmupBound_RUN p s hstate] at hb
          have := hinv.run_cnt hstate
          omega
  | succ N ih =>
      intro s hb g hinv hen hne
      cases hstate : s.state_ with
      | WARMUP => exact absurd hstate hne
      | RUN =>
          have hbs : toWarmupBound p s = p.RunCount - s.phaseCount_ :=
            toWarmupBound_RUN p s hstate
          have hphase := hinv.run_cnt hstate
          by_cases hc : s.phaseCount_ + 1 < p.RunCount
          · have hstep : callback p (g 0) s =
                { s with countAll_ := s.countAll_ + 1,
                         phaseCount_ := s.phaseCount_ + 1 } := by
              rw [callback_RUN p (g 0) s hen hstate,
                runStep_stay p { s with countAll_ := s.countAll_ + 1 } hc]
            have hbs1 : toWarmupBound p (callback p (g 0) s) =
                p.RunCount - (s.phaseCount_ + 1) := by
              rw [hstep]
              exact toWarmupBound_RUN p
                { s with countAll_ := s.countAll_ + 1,
                         phaseCount_ := s.phaseCount_ + 1 } hstate
            have hb1 : toWarmupBound p (callback p (g 0) s) ≤ N := by
              rw [hbs1]
              rw [hbs] at hb
              omega
            have hne1 : (callback p (g 0) s).state_ ≠ .WARMUP := by
              rw [hstep]
              exact fun hh => nomatch (hstate.symm.trans hh)
            obtain ⟨n, hn0, hnb, hnw⟩ := ih (callback p (g 0) s) hb1
              (fun k => g (k + 1)) (inv_callback p (g 0) s hok hinv)
              ((callback_enable p (g 0) s).trans hen) hne1
            refine ⟨n + 1, Nat.succ_pos n, ?_, ?_⟩
            · rw [hbs]
              rw [hbs1] at hnb
              omega
            · rw [runStream_succ]
              exact hnw
          · refine ⟨1, Nat.one_pos, ?_, ?_⟩
            · rw [hbs]; omega
            · show (callback p (g 0) s).state_ = .WARMUP
              rw [callback_RUN p (g 0) s hen hstate,
                runStep_exit p { s with countAll_ := s.countAll_ + 1 } hc]
      | ADAPT =>
          have hbs : toWarmupBound p s = adaptMeasure p s + 1 + p.RunCount :=
            toWarmupBound_ADAPT p s hstate
          have hor : (callback p (g 0) s).state_ = s.state_ ∨
              (callback p (g 0) s).state_ = .RUN := by
            rw [callback_ADAPT p (g 0) s hen hstate]
            exact adaptStep_state p { s with countAll_ := s.countAll_ + 1 }
              (g 0)
          rcases hor with h1 | h1
          · have h1A : (callback p (g 0) s).state_ = .ADAPT := h1.trans hstate
            have hdec := adapt_decrease p hok s (g 0) hinv hen hstate h1A
            have hbs1 : toWarmupBound p (callback p (g 0) s) =
                adaptMeasure p (callback p (g 0) s) + 1 + p.RunCount :=
              toWarmupBound_ADAPT p (callback p (g 0) s) h1A
            have hb1 : toWarmupBound p (callback p (g 0) s) ≤ N := by
              rw [hbs1]
              rw [hbs] at hb
              omega
            obtain ⟨n, hn0, hnb, hnw⟩ := ih (callback p (g 0) s) hb1
              (fun k => g (k + 1)) (inv_callback p (g 0) s hok hinv)
              ((callback_enable p (g 0) s).trans hen)
              (by rw [h1A]; exact fun hh => nomatch hh)
            refine ⟨n + 1, Nat.succ_pos n, ?_, ?_⟩
            · rw [hbs]
              rw [hbs1] at hnb
              rw [hbs] at hb
              omega
            · rw [runStream_succ]
              exact hnw
          · have hbs1 : toWarmupBound p (callback p (g 0) s) =
                p.RunCount - (callback p (g 0) s).phaseCount_ := by
              unfold toWarmupBound
              rw [if_neg (by rw [h1]; exact fun hh => nomatch hh),
                if_neg (by rw [h1]; exact fun hh => nomatch hh)]
            have hb1 : toWarmupBound p (callback p (g 0) s) ≤ N := by
              rw [hbs1]
              rw [hbs] at hb
              omega
            obtain ⟨n, hn0, hnb, hnw⟩ := ih (callback p (g 0) s) hb1
              (fun k => g (k + 1)) (inv_callback p (g 0) s hok hinv)
              ((callback_enable p (g 0) s).trans hen)
              (by rw [h1]; exact fun hh => nomatch hh)
            refine ⟨n + 1, Nat.succ_pos n, ?_, ?_⟩
            · rw [hbs]
              rw [hbs1] at hnb
              omega
            · rw [runStream_succ]
              exact hnw

/-- C3: the state machine of an enabled WaveLimiter starts in WARMUP,
accumulates `WarmUpCount` executions without changing `currWaves_` and then
transitions to ADAPT; in RUN it uses `bestWave_` for every dispatch and
after `RunCount` executions transitions back to WARMUP; and there is no
terminal state — from every reachable enabled state, under every
continuation of measured durations, the controller re-enters WARMUP, so the
cycle WARMUP, ADAPT, RUN, WARMUP repeats forever. -/
theorem wl_state_machine_cycle (p : Params) (hok : p.Ok) (simd : Nat)
    (hsimd : simd ≠ 0) (g : Nat → Nat) :
    (WaveLimiter.init p simd true).state_ = .WARMUP ∧
    (∀ k, k < p.WarmUpCount →
      (runStream p g k (WaveLimiter.init p simd true)).state_ = .WARMUP ∧
      (runStream p g k (WaveLimiter.init p simd true)).currWaves_ =
        (WaveLimiter.init p simd true).currWaves_) ∧
    ((runStream p g p.WarmUpCount
        (WaveLimiter.init p simd true)).state_ = .ADAPT ∧
      (runStream p g p.WarmUpCount
          (WaveLimiter.init p simd true)).currWaves_ =
        (WaveLimiter.init p simd true).currWaves_) ∧
    (∀ s, Reachable p s → s.enable_ = true → s.state_ = .RUN →
      WaveLimiter.getWavesPerSH s = s.bestWave_ ∧
      (∀ g2 k, k < p.RunCount - s.phaseCount_ →
        (runStream p g2 k s).state_ = .RUN ∧
        WaveLimiter.getWavesPerSH (runStream p g2 k s) = s.bestWave_) ∧
      (∀ g2, (runStream p g2 (p.RunCount - s.phaseCount_) s).state_ =
        .WARMUP)) ∧
    (∀ s, Reachable p s → s.enable_ = true → ∀ g2 : Nat → Nat,
      ∃ n, 0 < n ∧ (runStream p g2 n s).state_ = .WARMUP) := by
  have hWU : 1 ≤ p.WarmUpCount := hok.2.1
  have hen0 : (WaveLimiter.init p simd true).enable_ = true := by
    show (if simd = 0 then false else true) = true
    rw [if_neg hsimd]
  refine ⟨rfl, ?_, ?_, ?_, ?_⟩
  · intro k hk
    obtain ⟨ha, hb, _, _, _, _⟩ := runStream_warmup p g k
      (WaveLimiter.init p simd true) hen0 rfl
      (show 0 + k < p.WarmUpCount by omega)
    exact ⟨ha, hb⟩
  · have hW : p.WarmUpCount = (p.WarmUpCount - 1) + 1 := by omega
    rw [hW, runStream_add p g (p.WarmUpCount - 1) 1]
    set g1 : Nat → Nat := fun k => g (k + (p.WarmUpCount - 1))
    set sW := runStream p g (p.WarmUpCount - 1) (WaveLimiter.init p simd true)
    obtain ⟨ha, hb, hc, hd, he, hf⟩ := runStream_warmup p g
      (p.WarmUpCount - 1) (WaveLimiter.init p simd true) hen0 rfl
      (show 0 + (p.WarmUpCount - 1) < p.WarmUpCount by omega)
    have hcond : ¬ sW.phaseCount_ + 1 < p.WarmUpCount := by
      have hc2 : sW.phaseCount_ =
          (WaveLimiter.init p simd true).phaseCount_ + (p.WarmUpCount - 1) :=
        hc
      rw [hc2]
      omega
    show (callback p (g1 0) sW).state_ = .ADAPT ∧
      (callback p (g1 0) sW).currWaves_ =
        (WaveLimiter.init p simd true).currWaves_
    rw [callback_WARMUP p (g1 0) sW hf ha,
      warmupStep_exit p { sW with countAll_ := sW.countAll_ + 1 } hcond]
    exact ⟨rfl, hd⟩
  · intro s hr hen hst
    have hinv := reachable_inv p s hok hr
    have hphase := hinv.run_cnt hst
    have hcurr : s.currWaves_ = s.bestWave_ :=
      hinv.nonadapt_curr (by rw [hst]; exact fun hh => nomatch hh)
    refine ⟨hcurr, ?_, ?_⟩
    · intro g2 k hk
      obtain ⟨ha, hb, _, _, _, _⟩ := runStream_run p g2 k s hen hst
        (by omega)
      exact ⟨ha, hb.trans hcurr⟩
    · intro g2
      have hR : p.RunCount - s.phaseCount_ =
          (p.RunCount - s.phaseCount_ - 1) + 1 := by omega
      rw [hR, runStream_add p g2 (p.RunCount - s.phaseCount_ - 1) 1]
      set g3 : Nat → Nat := fun k => g2 (k + (p.RunCount - s.phaseCount_ - 1))
      set sR := runStream p g2 (p.RunCount - s.phaseCount_ - 1) s
      obtain ⟨ha, hb, hc, hd, he, hf⟩ := runStream_run p g2
        (p.RunCount - s.phaseCount_ - 1) s hen hst (by omega)
      have hcond : ¬ sR.phaseCount_ + 1 < p.RunCount := by
        have hc2 : sR.phaseCount_ =
            s.phaseCount_ + (p.RunCount - s.phaseCount_ - 1) := hc
        rw [hc2]
        omega
      show (callback p (g3 0) sR).state_ = .WARMUP
      rw [callback_RUN p (g3 0) sR hf ha,
        runStep_exit p { sR with countAll_ := sR.countAll_ + 1 } hcond]
  · intro s hr hen g2
    have hinv := reachable_inv p s hok hr
    by_cases hw : s.state_ = .WARMUP
    · by_cases hc : s.phaseCount_ + 1 < p.WarmUpCount
      · refine ⟨1, Nat.one_pos, ?_⟩
        show (callback p (g2 0) s).state_ = .WARMUP
        rw [callback_WARMUP p (g2 0) s hen hw,
          warmupStep_stay p { s with countAll_ := s.countAll_ + 1 } hc]
        exact hw
      · have hstep : (callback p (g2 0) s).state_ = .ADAPT := by
          rw [callback_WARMUP p (g2 0) s hen hw,
            warmupStep_exit p { s with countAll_ := s.countAll_ + 1 } hc]
        obtain ⟨n, hn0, _, hnw⟩ := eventually_warmup p hok
          (toWarmupBound p (callback p (g2 0) s)) (callback p (g2 0) s)
          (le_refl _) (fun k => g2 (k + 1))
          (inv_callback p (g2 0) s hok hinv)
          ((callback_enable p (g2 0) s).trans hen)
          (by rw [hstep]; exact fun hh => nomatch hh)
        refine ⟨n + 1, Nat.succ_pos n, ?_⟩
        rw [runStream_succ]
        exact hnw
    · obtain ⟨n, hn0, _, hnw⟩ := eventually_warmup p hok (toWarmupBound p s)
        s (le_refl _) g2 hinv hen hw
      exact ⟨n, hn0, hnw⟩

theorem wl_state_machine_cycle_witness :
    pW.Ok ∧ (4 : Nat) ≠ 0 ∧
    ((WaveLimiter.init pW 4 true).state_ = .WARMUP ∧
    (∀ k, k < pW.WarmUpCount →
      (runStream pW (fun _ => 5) k (WaveLimiter.init pW 4 true)).state_ =
        .WARMUP ∧
      (runStream pW (fun _ => 5) k
          (WaveLimiter.init pW 4 true)).currWaves_ =
        (WaveLimiter.init pW 4 true).currWaves_) ∧
    ((runStream pW (fun _ => 5) pW.WarmUpCount
        (WaveLimiter.init pW 4 true)).state_ = .ADAPT ∧
      (runStream pW (fun _ => 5) pW.WarmUpCount
          (WaveLimiter.init pW 4 true)).currWaves_ =
        (WaveLimiter.init pW 4 true).currWaves_) ∧
    (∀ s, Reachable pW s → s.enable_ = true → s.state_ = .RUN →
      WaveLimiter.getWavesPerSH s = s.bestWave_ ∧
      (∀ g2 k, k < pW.RunCount - s.phaseCount_ →
        (runStream pW g2 k s).state_ = .RUN ∧
        WaveLimiter.getWavesPerSH (runStream pW g2 k s) = s.bestWave_) ∧
      (∀ g2, (runStream pW g2 (pW.RunCount - s.phaseCount_) s).state_ =
        .WARMUP)) ∧
    (∀ s, Reachable pW s → s.enable_ = true → ∀ g2 : Nat → Nat,
      ∃ n, 0 < n ∧ (runStream pW g2 n s).state_ = .WARMUP)) :=
  ⟨by decide, by decide,
    wl_state_machine_cycle pW (by decide) 4 (by decide) (fun _ => 5)⟩

/-! ## Closed-loop convergence (C4) -/

theorem runClosed_zero (p : Params) (f : Nat → Nat) (s : WLState) :
    runClosed p f 0 s = s := rfl

theorem runClosed_one (p : Params) (f : Nat → Nat) (s : WLState) :
    runClosed p f 1 s = callback p (f s.currWaves_) s := rfl

theorem runClosed_step (p : Params) (f : Nat → Nat) (n : Nat) (s : WLState)
    (w : Nat) (hw : s.currWaves_ = w) :
    runClosed p f (n + 1) s = runClosed p f n (callback p (f w) s) := by
  rw [← hw]; rfl

theorem sum_replicate_mul (n x : Nat) : (List.replicate n x).sum = n * x := by
  induction n with
  | zero => simp
  | succ n ih => rw [List.replicate_succ, List.sum_cons, ih]; ring

/-- The stability ratio of aggregated buffers of equal-valued samples is the
ratio of the sample values: the common buffer length cancels. -/
theorem ratioOf_cancel (n a b : Nat) (hn : 0 < n) :
    ratioOf (n * a) (n * b) = ratioOf a b := by
  unfold ratioOf
  rw [show 100 * (n * a) = n * (100 * a) from by ring]
  exact Nat.mul_div_mul_left (100 * a) b hn

/-- When the trial duration `b` beats the reference duration `a` by the
margin `(101 + A) * b ≤ 100 * a`, the measured ratio clears the dead zone. -/
theorem ratioOf_adopt (n a b A : Nat) (hn : 0 < n) (hb : 0 < b)
    (h : (101 + A) * b ≤ 100 * a) : 100 + A < ratioOf (n * a) (n * b) := by
  rw [ratioOf_cancel n a b hn]
  unfold ratioOf
  have h2 : 101 + A ≤ 100 * a / b := (Nat.le_div_iff_mul_le hb).mpr h
  omega

/-- When the reference duration `a` is no larger than the trial duration
`b`, the measured ratio never clears the dead zone: the trial is kept out. -/
theorem ratioOf_keep (n a b A : Nat) (hn : 0 < n) (hb : 0 < b)
    (hab : a ≤ b) : ¬ (100 + A < ratioOf (n * a) (n * b)) := by
  rw [ratioOf_cancel n a b hn]
  unfold ratioOf
  have h1 : 100 * a / b ≤ 100 * b / b :=
    Nat.div_le_div_right (Nat.mul_le_mul_left 100 hab)
  rw [Nat.mul_div_cancel 100 hb] at h1
  omega

/-- The margin hypothesis in particular makes the optimum no slower than any
other wave count. -/
theorem margin_le (A fw fv : Nat) (h : (101 + A) * fw ≤ 100 * fv) :
    fw ≤ fv := by
  have h1 : 101 * fw ≤ (101 + A) * fw :=
    Nat.mul_le_mul_right fw (by omega)
  have h2 : 100 * fv ≤ 101 * fv := Nat.mul_le_mul_right fv (by omega)
  exact Nat.le_of_mul_le_mul_left (by omega : 101 * fw ≤ 101 * fv) (by omega)

theorem init_eq_warmState (p : Params) (simd : Nat) (hsimd : simd ≠ 0) :
    WaveLimiter.init p simd true = warmState p simd 0 0 := by
  unfold WaveLimiter.init warmState
  rw [if_neg hsimd]

theorem warm_iterate (p : Params) (f : Nat → Nat) (simd k : Nat) :
    ∀ c q, q + k < p.WarmUpCount →
    runClosed p f k (warmState p simd c q) = warmState p simd (c + k) (q + k) := by
  induction k with
  | zero => intro c q h; rfl
  | succ k ih =>
      intro c q h
      rw [runClosed_step p f k (warmState p simd c q) p.MaxWave rfl]
      have hstep : callback p (f p.MaxWave) (warmState p simd c q)
          = warmState p simd (c + 1) (q + 1) := by
        rw [callback_WARMUP p (f p.MaxWave) (warmState p simd c q) rfl rfl]
        rw [warmupStep_stay p
          { warmState p simd c q with
              countAll_ := (warmState p simd c q).countAll_ + 1 }
          (show q + 1 < p.WarmUpCount by omega)]
        rfl
      rw [hstep, ih (c + 1) (q + 1) (by omega)]
      rw [show c + 1 + k = c + (k + 1) from by omega,
        show q + 1 + k = q + (k + 1) from by omega]

theorem warm_exit_step (p : Params) (simd c q : Nat) (d : Nat)
    (hq : ¬ q + 1 < p.WarmUpCount) :
    callback p d (warmState p simd c q)
      = pairState p simd (c + 1) 0 p.MaxWave (p.MaxWave - 1) := by
  rw [callback_WARMUP p d (warmState p simd c q) rfl rfl]
  rw [warmupStep_exit p
    { warmState p simd c q with
        countAll_ := (warmState p simd c q).countAll_ + 1 }
    (show ¬ q + 1 < p.WarmUpCount from hq)]
  rfl

/-- The whole WARMUP phase of a freshly constructed enabled limiter: after
`WarmUpCount` closed-loop callbacks it sits at the start of the first
adaptation round, with the safe default as reference and the next lower
wave count on trial. -/
theorem warm_phase (p : Params) (hok : p.Ok) (simd : Nat) (hsimd : simd ≠ 0)
    (f : Nat → Nat) :
    runClosed p f p.WarmUpCount (WaveLimiter.init p simd true)
      = pairState p simd p.WarmUpCount 0 p.MaxWave (p.MaxWave - 1) := by
  have hW : 1 ≤ p.WarmUpCount := hok.2.1
  rw [init_eq_warmState p simd hsimd]
  conv_lhs =>
    rw [show p.WarmUpCount = (p.WarmUpCount - 1) + 1 from by omega]
  rw [runClosed_add, warm_iterate p f simd (p.WarmUpCount - 1) 0 0 (by omega)]
  rw [runClosed_one]
  rw [warm_exit_step p simd (0 + (p.WarmUpCount - 1)) (0 + (p.WarmUpCount - 1))
    _ (by omega)]
  rw [show 0 + (p.WarmUpCount - 1) + 1 = p.WarmUpCount from by omega]

/-- One reference-buffer sample that does not yet fill the buffer: the
duration is appended and the reference wave count stays dispatched. -/
theorem step_ref_mid (p : Params) (simd c q r t j : Nat) (ρs : List Nat)
    (d : Nat) (ht : 1 ≤ t) (hj : j + 1 < p.SampleCount) :
    callback p d (fillState p simd c q r t (List.replicate j d) [] ρs r)
      = fillState p simd (c + 1) q r t (List.replicate (j + 1) d) [] ρs r := by
  rw [callback_ADAPT p d (fillState p simd c q r t (List.replicate j d) [] ρs r)
    rfl rfl]
  show adaptStep p (fillState p simd (c + 1) q r t (List.replicate j d) [] ρs r) d
      = fillState p simd (c + 1) q r t (List.replicate (j + 1) d) [] ρs r
  rw [adaptStep_ref p (fillState p simd (c + 1) q r t (List.replicate j d) [] ρs r)
    d (show ¬ (t = 0) by omega)
    (show (List.replicate j d).length < p.SampleCount by
      simp only [List.length_replicate]; omega)]
  have hC : ((fillState p simd (c + 1) q r t (List.replicate j d) [] ρs r).reference_
        ++ [d]).length <
      (fillState p simd (c + 1) q r t (List.replicate j d) [] ρs r).dynRunCount_ := by
    show (List.replicate j d ++ [d]).length < p.SampleCount
    simp only [List.length_append, List.length_replicate, List.length_cons,
      List.length_nil]
    omega
  rw [if_pos hC, List.replicate_succ' j d]
  rfl

/-- The reference-buffer sample that fills the buffer: from now on the trial
wave count is dispatched. -/
theorem step_ref_last (p : Params) (simd c q r t : Nat) (ρs : List Nat)
    (d : Nat) (ht : 1 ≤ t) (hn : 1 ≤ p.SampleCount) :
    callback p d (fillState p simd c q r t
        (List.replicate (p.SampleCount - 1) d) [] ρs r)
      = fillState p simd (c + 1) q r t (List.replicate p.SampleCount d) [] ρs t := by
  rw [callback_ADAPT p d (fillState p simd c q r t
    (List.replicate (p.SampleCount - 1) d) [] ρs r) rfl rfl]
  show adaptStep p (fillState p simd (c + 1) q r t
      (List.replicate (p.SampleCount - 1) d) [] ρs r) d
    = fillState p simd (c + 1) q r t (List.replicate p.SampleCount d) [] ρs t
  rw [adaptStep_ref p (fillState p simd (c + 1) q r t
      (List.replicate (p.SampleCount - 1) d) [] ρs r) d
    (show ¬ (t = 0) by omega)
    (show (List.replicate (p.SampleCount - 1) d).length < p.SampleCount by
      simp only [List.length_replicate]; omega)]
  have hC : ¬ ((fillState p simd (c + 1) q r t
        (List.replicate (p.SampleCount - 1) d) [] ρs r).reference_
        ++ [d]).length <
      (fillState p simd (c + 1) q r t
        (List.replicate (p.SampleCount - 1) d) [] ρs r).dynRunCount_ := by
    show ¬ (List.replicate (p.SampleCount - 1) d ++ [d]).length < p.SampleCount
    simp only [List.length_append, List.length_replicate, List.length_cons,
      List.length_nil]
    omega
  rw [if_neg hC,
    show List.replicate p.SampleCount d
        = List.replicate (p.SampleCount - 1) d ++ [d] from by
      rw [← List.replicate_succ',
        show p.SampleCount - 1 + 1 = p.SampleCount from by omega]]
  rfl

/-- One trial-buffer sample that does not yet close the round. -/
theorem step_tri_mid (p : Params) (simd c q r t j : Nat) (ρs : List Nat)
    (a d : Nat) (ht : 1 ≤ t) (hj : j + 1 < p.SampleCount) :
    callback p d (fillState p simd c q r t (List.replicate p.SampleCount a)
        (List.replicate j d) ρs t)
      = fillState p simd (c + 1) q r t (List.replicate p.SampleCount a)
          (List.replicate (j + 1) d) ρs t := by
  rw [callback_ADAPT p d (fillState p simd c q r t
    (List.replicate p.SampleCount a) (List.replicate j d) ρs t) rfl rfl]
  show adaptStep p (fillState p simd (c + 1) q r t
      (List.replicate p.SampleCount a) (List.replicate j d) ρs t) d
    = fillState p simd (c + 1) q r t (List.replicate p.SampleCount a)
        (List.replicate (j + 1) d) ρs t
  rw [adaptStep_tri p (fillState p simd (c + 1) q r t
      (List.replicate p.SampleCount a) (List.replicate j d) ρs t) d
    (show ¬ (t = 0) by omega)
    (show ¬ (List.replicate p.SampleCount a).length < p.SampleCount by
      simp only [List.length_replicate]; omega)
    (show (List.replicate j d).length + 1 < p.SampleCount by
      simp only [List.length_replicate]; omega)]
  rw [List.replicate_succ' j d]
  rfl

/-- The trial-buffer sample that closes the measurement round. -/
theorem step_tri_last (p : Params) (simd c q r t : Nat) (ρs : List Nat)
    (a d : Nat) (ht : 1 ≤ t) (hn : 1 ≤ p.SampleCount) :
    callback p d (fillState p simd c q r t (List.replicate p.SampleCount a)
        (List.replicate (p.SampleCount - 1) d) ρs t)
      = finishRound p (fillState p simd (c + 1) q r t
          (List.replicate p.SampleCount a) (List.replicate p.SampleCount d)
          ρs t) := by
  rw [callback_round p (fillState p simd c q r t
      (List.replicate p.SampleCount a)
      (List.replicate (p.SampleCount - 1) d) ρs t) d rfl rfl
    (show ¬ (t = 0) by omega)
    (show ¬ (List.replicate p.SampleCount a).length < p.SampleCount by
      simp only [List.length_replicate]; omega)
    (show ¬ (List.replicate (p.SampleCount - 1) d).length + 1 < p.SampleCount by
      simp only [List.length_replicate]; omega)]
  rw [show List.replicate p.SampleCount d
      = List.replicate (p.SampleCount - 1) d ++ [d] from by
    rw [← List.replicate_succ',
      show p.SampleCount - 1 + 1 = p.SampleCount from by omega]]
  rfl

/-- Iterated reference-buffer filling: `k` closed-loop callbacks append `k`
measurements of the reference wave count. -/
theorem ref_fill (p : Params) (f : Nat → Nat) (simd q r t : Nat)
    (ρs : List Nat) (ht : 1 ≤ t) :
    ∀ k j c, j + k < p.SampleCount →
    runClosed p f k (fillState p simd c q r t
        (List.replicate j (f r)) [] ρs r)
      = fillState p simd (c + k) q r t
          (List.replicate (j + k) (f r)) [] ρs r := by
  intro k
  induction k with
  | zero => intro j c h; rfl
  | succ k ih =>
      intro j c h
      rw [runClosed_step p f k (fillState p simd c q r t
        (List.replicate j (f r)) [] ρs r) r rfl]
      rw [step_ref_mid p simd c q r t j ρs (f r) ht (by omega)]
      rw [ih (j + 1) (c + 1) (by omega)]
      rw [show c + 1 + k = c + (k + 1) from by omega,
        show j + 1 + k = j + (k + 1) from by omega]

/-- Iterated trial-buffer filling: `k` closed-loop callbacks append `k`
measurements of the trial wave count. -/
theorem tri_fill (p : Params) (f : Nat → Nat) (simd q r t : Nat)
    (ρs : List Nat) (a : Nat) (ht : 1 ≤ t) :
    ∀ k j c, j + k < p.SampleCount →
    runClosed p f k (fillState p simd c q r t
        (List.replicate p.SampleCount a) (List.replicate j (f t)) ρs t)
      = fillState p simd (c + k) q r t
          (List.replicate p.SampleCount a)
          (List.replicate (j + k) (f t)) ρs t := by
  intro k
  induction k with
  | zero => intro j c h; rfl
  | succ k ih =>
      intro j c h
      rw [runClosed_step p f k (fillState p simd c q r t
        (List.replicate p.SampleCount a) (List.replicate j (f t)) ρs t) t rfl]
      rw [step_tri_mid p simd c q r t j ρs a (f t) ht (by omega)]
      rw [ih (j + 1) (c + 1) (by omega)]
      rw [show c + 1 + k = c + (k + 1) from by omega,
        show j + 1 + k = j + (k + 1) from by omega]

/-- A half measurement round: `2 * SampleCount` closed-loop callbacks fill
both buffers and hand the full buffers to `finishRound`. -/
theorem half_cycle (p : Params) (f : Nat → Nat) (simd c q r t : Nat)
    (ρs : List Nat) (ht : 1 ≤ t) (hn : 1 ≤ p.SampleCount) :
    runClosed p f (2 * p.SampleCount) (fillState p simd c q r t [] [] ρs r)
      = finishRound p (fillState p simd (c + 2 * p.SampleCount) q r t
          (List.replicate p.SampleCount (f r))
          (List.replicate p.SampleCount (f t)) ρs t) := by
  conv_lhs =>
    rw [show 2 * p.SampleCount
      = (p.SampleCount - 1) + (1 + ((p.SampleCount - 1) + 1)) from by omega]
  rw [runClosed_add]
  have hf0 := ref_fill p f simd q r t ρs ht (p.SampleCount - 1) 0 c (by omega)
  simp only [List.replicate_zero, Nat.zero_add] at hf0
  rw [hf0]
  rw [runClosed_add p f 1 ((p.SampleCount - 1) + 1)]
  rw [runClosed_one]
  rw [show (fillState p simd (c + (p.SampleCount - 1)) q r t
      (List.replicate (p.SampleCount - 1) (f r)) [] ρs r).currWaves_ = r
    from rfl]
  rw [step_ref_last p simd (c + (p.SampleCount - 1)) q r t ρs (f r) ht hn]
  rw [show c + (p.SampleCount - 1) + 1 = c + p.SampleCount from by omega]
  rw [runClosed_add p f (p.SampleCount - 1) 1]
  have hf1 := tri_fill p f simd q r t ρs (f r) ht (p.SampleCount - 1) 0
    (c + p.SampleCount) (by omega)
  simp only [List.replicate_zero, Nat.zero_add] at hf1
  rw [hf1]
  rw [runClosed_one]
  rw [show (fillState p simd (c + p.SampleCount + (p.SampleCount - 1)) q r t
      (List.replicate p.SampleCount (f r))
      (List.replicate (p.SampleCount - 1) (f t)) ρs t).currWaves_ = t
    from rfl]
  rw [step_tri_last p simd (c + p.SampleCount + (p.SampleCount - 1)) q r t ρs
    (f r) (f t) ht hn]
  rw [show c + p.SampleCount + (p.SampleCount - 1) + 1 = c + 2 * p.SampleCount
    from by omega]

/-- A first full round (empty ratio history) just records the measured ratio
and restarts measurement. -/
theorem round_first (p : Params) (simd c q r t : Nat) (ref tri : List Nat) :
    finishRound p (fillState p simd c q r t ref tri [] t)
      = fillState p simd c q r t [] [] [ratioOf ref.sum tri.sum] r := by
  rw [finishRound_first p (fillState p simd c q r t ref tri [] t) rfl]
  rfl

/-- A second full round confirming the recorded ratio, in a finalizing
position (last adaptation round or lowest trial): the controller enters RUN
with the keep/discard decision committed everywhere. -/
theorem round_final (p : Params) (simd c q r t : Nat) (ref tri : List Nat)
    (hdec : p.AdaptCount ≤ q + 1 ∨ t ≤ 1) :
    finishRound p (fillState p simd c q r t ref tri
        [ratioOf ref.sum tri.sum] t)
      = finalRunState p simd c (q + 1)
          (if 100 + p.AbandonThresh < ratioOf ref.sum tri.sum then t else r) := by
  have hne : (fillState p simd c q r t ref tri
      [ratioOf ref.sum tri.sum] t).ratio_.isEmpty = false := rfl
  have hdsc : ¬ p.DscThresh < Nat.dist
      (ratioOf (fillState p simd c q r t ref tri
        [ratioOf ref.sum tri.sum] t).reference_.sum
        (fillState p simd c q r t ref tri
          [ratioOf ref.sum tri.sum] t).trial_.sum)
      ((fillState p simd c q r t ref tri
        [ratioOf ref.sum tri.sum] t).ratio_.headD 0) := by
    show ¬ p.DscThresh <
      Nat.dist (ratioOf ref.sum tri.sum) (ratioOf ref.sum tri.sum)
    rw [Nat.dist_self]
    omega
  rw [finishRound_decision p (fillState p simd c q r t ref tri
    [ratioOf ref.sum tri.sum] t) hne hdsc]
  rw [if_pos (show p.AdaptCount ≤ (fillState p simd c q r t ref tri
      [ratioOf ref.sum tri.sum] t).adaptRounds_ + 1 ∨
    (fillState p simd c q r t ref tri
      [ratioOf ref.sum tri.sum] t).trialWave_ ≤ 1 from hdec)]
  rfl

/-- A second full round confirming the recorded ratio, in a continuing
position: the keep/discard decision is committed and the next lower wave
count goes on trial. -/
theorem round_cont (p : Params) (simd c q r t : Nat) (ref tri : List Nat)
    (hdec : ¬ (p.AdaptCount ≤ q + 1 ∨ t ≤ 1)) :
    finishRound p (fillState p simd c q r t ref tri
        [ratioOf ref.sum tri.sum] t)
      = pairState p simd c (q + 1)
          (if 100 + p.AbandonThresh < ratioOf ref.sum tri.sum then t else r)
          (t - 1) := by
  have hne : (fillState p simd c q r t ref tri
      [ratioOf ref.sum tri.sum] t).ratio_.isEmpty = false := rfl
  have hdsc : ¬ p.DscThresh < Nat.dist
      (ratioOf (fillState p simd c q r t ref tri
        [ratioOf ref.sum tri.sum] t).reference_.sum
        (fillState p simd c q r t ref tri
          [ratioOf ref.sum tri.sum] t).trial_.sum)
      ((fillState p simd c q r t ref tri
        [ratioOf ref.sum tri.sum] t).ratio_.headD 0) := by
    show ¬ p.DscThresh <
      Nat.dist (ratioOf ref.sum tri.sum) (ratioOf ref.sum tri.sum)
    rw [Nat.dist_self]
    omega
  rw [finishRound_decision p (fillState p simd c q r t ref tri
    [ratioOf ref.sum tri.sum] t) hne hdsc]
  rw [if_neg (show ¬ (p.AdaptCount ≤ (fillState p simd c q r t ref tri
      [ratioOf ref.sum tri.sum] t).adaptRounds_ + 1 ∨
    (fillState p simd c q r t ref tri
      [ratioOf ref.sum tri.sum] t).trialWave_ ≤ 1) from hdec)]
  rfl

/-- One full adaptation round in a finalizing position: `4 * SampleCount`
callbacks measure reference and trial twice, confirm the ratio, and
finalize into RUN with the keep/discard decision. -/
theorem cycle_final (p : Params) (f : Nat → Nat) (simd c q r t : Nat)
    (ht : 1 ≤ t) (hn : 1 ≤ p.SampleCount)
    (hdec : p.AdaptCount ≤ q + 1 ∨ t ≤ 1) :
    runClosed p f (4 * p.SampleCount) (pairState p simd c q r t)
      = finalRunState p simd (c + 4 * p.SampleCount) (q + 1)
          (if 100 + p.AbandonThresh <
              ratioOf (p.SampleCount * f r) (p.SampleCount * f t)
            then t else r) := by
  conv_lhs =>
    rw [show 4 * p.SampleCount = 2 * p.SampleCount + 2 * p.SampleCount
      from by ring]
  rw [runClosed_add]
  rw [show pairState p simd c q r t = fillState p simd c q r t [] [] [] r
    from rfl]
  rw [half_cycle p f simd c q r t [] ht hn]
  rw [round_first p simd (c + 2 * p.SampleCount) q r t
    (List.replicate p.SampleCount (f r)) (List.replicate p.SampleCount (f t))]
  rw [half_cycle p f simd (c + 2 * p.SampleCount) q r t
    [ratioOf (List.replicate p.SampleCount (f r)).sum
      (List.replicate p.SampleCount (f t)).sum] ht hn]
  rw [round_final p simd (c + 2 * p.SampleCount + 2 * p.SampleCount) q r t
    (List.replicate p.SampleCount (f r)) (List.replicate p.SampleCount (f t))
    hdec]
  rw [sum_replicate_mul p.SampleCount (f r), sum_replicate_mul p.SampleCount (f t)]
  rw [show c + 2 * p.SampleCount + 2 * p.SampleCount = c + 4 * p.SampleCount
    from by ring]

/-- One full adaptation round in a continuing position: `4 * SampleCount`
callbacks commit the keep/discard decision and put the next lower wave
count on trial. -/
theorem cycle_cont (p : Params) (f : Nat → Nat) (simd c q r t : Nat)
    (ht : 1 ≤ t) (hn : 1 ≤ p.SampleCount)
    (hdec : ¬ (p.AdaptCount ≤ q + 1 ∨ t ≤ 1)) :
    runClosed p f (4 * p.SampleCount) (pairState p simd c q r t)
      = pairState p simd (c + 4 * p.SampleCount) (q + 1)
          (if 100 + p.AbandonThresh <
              ratioOf (p.SampleCount * f r) (p.SampleCount * f t)
            then t else r) (t - 1) := by
  conv_lhs =>
    rw [show 4 * p.SampleCount = 2 * p.SampleCount + 2 * p.SampleCount
      from by ring]
  rw [runClosed_add]
  rw [show pairState p simd c q r t = fillState p simd c q r t [] [] [] r
    from rfl]
  rw [half_cycle p f simd c q r t [] ht hn]
  rw [round_first p simd (c + 2 * p.SampleCount) q r t
    (List.replicate p.SampleCount (f r)) (List.replicate p.SampleCount (f t))]
  rw [half_cycle p f simd (c + 2 * p.SampleCount) q r t
    [ratioOf (List.replicate p.SampleCount (f r)).sum
      (List.replicate p.SampleCount (f t)).sum] ht hn]
  rw [round_cont p simd (c + 2 * p.SampleCount + 2 * p.SampleCount) q r t
    (List.replicate p.SampleCount (f r)) (List.replicate p.SampleCount (f t))
    hdec]
  rw [sum_replicate_mul p.SampleCount (f r), sum_replicate_mul p.SampleCount (f t)]
  rw [show c + 2 * p.SampleCount + 2 * p.SampleCount = c + 4 * p.SampleCount
    from by ring]

/-- The descending trial search: started anywhere in the descent with a
reference that is the optimum whenever the optimum has already been passed,
the controller finishes the remaining `t` trials in `4 * SampleCount * t`
callbacks and lands in RUN with the optimum as best wave count. -/
theorem descent (p : Params) (hok : p.Ok) (simd : Nat) (f : Nat → Nat)
    (wstar : Nat) (hAC : p.MaxWave - 1 ≤ p.AdaptCount)
    (hw1 : 1 ≤ wstar) (hwM : wstar ≤ p.MaxWave) (hfw : 0 < f wstar)
    (hmargin : ∀ w, 1 ≤ w → w ≤ p.MaxWave → w ≠ wstar →
      (101 + p.AbandonThresh) * f wstar ≤ 100 * f w) :
    ∀ t, 1 ≤ t → t ≤ p.MaxWave - 1 → ∀ c r, t < r → r ≤ p.MaxWave →
      (t < wstar → r = wstar) →
      (runClosed p f (4 * p.SampleCount * t)
          (pairState p simd c ((p.MaxWave - 1) - t) r t)).state_ = .RUN ∧
      (runClosed p f (4 * p.SampleCount * t)
          (pairState p simd c ((p.MaxWave - 1) - t) r t)).bestWave_ = wstar ∧
      (runClosed p f (4 * p.SampleCount * t)
          (pairState p simd c ((p.MaxWave - 1) - t) r t)).currWaves_ = wstar := by
  have hn : 1 ≤ p.SampleCount := hok.2.2.2.2.1
  intro t
  induction t with
  | zero => intro h1; omega
  | succ k ih =>
      intro ht1 htM c r hrt hrM hinv
      by_cases hk : k = 0
      · subst hk
        rw [show 4 * p.SampleCount * 1 = 4 * p.SampleCount from by ring]
        rw [cycle_final p f simd c ((p.MaxWave - 1) - 1) r 1 (by omega) hn
          (Or.inr (by omega))]
        have hval : (if 100 + p.AbandonThresh <
            ratioOf (p.SampleCount * f r) (p.SampleCount * f 1)
          then 1 else r) = wstar := by
          by_cases hws : wstar = 1
          · subst hws
            have hadopt : 100 + p.AbandonThresh <
                ratioOf (p.SampleCount * f r) (p.SampleCount * f 1) :=
              ratioOf_adopt p.SampleCount (f r) (f 1) p.AbandonThresh
                (by omega) hfw
                (hmargin r (by omega) hrM (by omega))
            rw [if_pos hadopt]
          · have hr : r = wstar := hinv (by omega)
            subst hr
            have hle : f r ≤ f 1 :=
              margin_le p.AbandonThresh (f r) (f 1)
                (hmargin 1 (by omega) (by omega) (by omega))
            have hkeep := ratioOf_keep p.SampleCount (f r) (f 1)
              p.AbandonThresh (by omega) (by omega) hle
            rw [if_neg hkeep]
        rw [hval]
        exact ⟨rfl, rfl, rfl⟩
      · rw [show 4 * p.SampleCount * (k + 1)
            = 4 * p.SampleCount + 4 * p.SampleCount * k from by ring]
        rw [runClosed_add]
        rw [cycle_cont p f simd c ((p.MaxWave - 1) - (k + 1)) r (k + 1)
          (by omega) hn (by omega)]
        rw [show (p.MaxWave - 1) - (k + 1) + 1 = (p.MaxWave - 1) - k
          from by omega]
        rw [show k + 1 - 1 = k from by omega]
        by_cases had : 100 + p.AbandonThresh <
            ratioOf (p.SampleCount * f r) (p.SampleCount * f (k + 1))
        · rw [if_pos had]
          refine ih (by omega) (by omega) (c + 4 * p.SampleCount) (k + 1)
            (by omega) (by omega) ?_
          intro hkw
          by_cases hws2 : wstar = k + 1
          · exact hws2.symm
          · exfalso
            have hr : r = wstar := hinv (by omega)
            have hle : f wstar ≤ f (k + 1) :=
              margin_le p.AbandonThresh (f wstar) (f (k + 1))
                (hmargin (k + 1) (by omega) (by omega) (by omega))
            rw [hr] at had
            exact ratioOf_keep p.SampleCount (f wstar) (f (k + 1))
              p.AbandonThresh (by omega) (by omega) hle had
        · rw [if_neg had]
          refine ih (by omega) (by omega) (c + 4 * p.SampleCount) r
            (by omega) hrM ?_
          intro hkw
          by_cases hws2 : wstar = k + 1
          · exfalso
            have hadopt : 100 + p.AbandonThresh <
                ratioOf (p.SampleCount * f r) (p.SampleCount * f (k + 1)) := by
              rw [← hws2]
              exact ratioOf_adopt p.SampleCount (f r) (f wstar)
                p.AbandonThresh (by omega) hfw
                (hmargin r (by omega) hrM (by omega))
            exact had hadopt
          · exact hinv (by omega)

/-- C4: counterexample to the claim as stated.  Under the fixture `p4` with
timing source `f0`, wave count 2 deterministically yields the strictly
lowest duration among all candidates in `[1, MaxWave]`, yet `bestWaves`
never becomes 2 — not within the claimed bound
`WarmUpCount + AdaptCount * SampleCount` executions (which is at most 30)
nor at any point up to 30 executions: the keep/discard decision works on
the integer percentage ratio `100 * sumRef / sumTrial` with dead zone
`AbandonThresh`, so a strictly-lowest duration whose advantage is below one
percent is never adopted. -/
theorem strict_minimum_not_adopted :
    (∀ w : Fin 4, 1 ≤ w.val → w.val ≠ 2 → f0 2 < f0 w.val) ∧
    p4.WarmUpCount + p4.AdaptCount * p4.SampleCount ≤ 30 ∧
    (∀ n : Fin 31,
      (runClosed p4 f0 n.val (WaveLimiter.init p4 4 true)).bestWave_ ≠ 2) := by
  decide

/-- C4 (amended): convergence to the optimum holds when the optimum's
advantage clears the integer dead zone of the keep/discard decision.  For
every synthetic timing source `f` and wave count `wstar` in `[1, MaxWave]`
such that every other wave count in range is at least a factor
`(101 + AbandonThresh) / 100` slower, the closed-loop controller reaches
RUN with `bestWaves = wstar` (and dispatches `wstar`, as `getWavesPerSH`
reports) after exactly `WarmUpCount + 4 * SampleCount * (MaxWave - 1)`
executions — a bound of the claimed shape, linear in the sample window,
with `4 * (MaxWave - 1) ≤ 4 * AdaptCount` rounds needed because each of
the `MaxWave - 1` descending trials takes two confirming measurement
rounds of two buffers each.  The hypothesis `MaxWave - 1 ≤ AdaptCount`
keeps the round budget from exhausting before the lowest candidate. -/
theorem smooth_converges (p : Params) (hok : p.Ok) (simd : Nat)
    (hsimd : simd ≠ 0) (f : Nat → Nat) (wstar : Nat)
    (hM : 2 ≤ p.MaxWave) (hAC : p.MaxWave - 1 ≤ p.AdaptCount)
    (hw1 : 1 ≤ wstar) (hwM : wstar ≤ p.MaxWave) (hfw : 0 < f wstar)
    (hmargin : ∀ w, 1 ≤ w → w ≤ p.MaxWave → w ≠ wstar →
      (101 + p.AbandonThresh) * f wstar ≤ 100 * f w) :
    (runClosed p f (p.WarmUpCount + 4 * p.SampleCount * (p.MaxWave - 1))
        (WaveLimiter.init p simd true)).state_ = .RUN ∧
    (runClosed p f (p.WarmUpCount + 4 * p.SampleCount * (p.MaxWave - 1))
        (WaveLimiter.init p simd true)).bestWave_ = wstar ∧
    WaveLimiter.getWavesPerSH
      (runClosed p f (p.WarmUpCount + 4 * p.SampleCount * (p.MaxWave - 1))
        (WaveLimiter.init p simd true)) = wstar := by
  rw [runClosed_add, warm_phase p hok simd hsimd f]
  have hd := descent p hok simd f wstar hAC hw1 hwM hfw hmargin
    (p.MaxWave - 1) (by omega) (le_refl _) p.WarmUpCount p.MaxWave
    (by omega) (le_refl _) (by omega)
  rw [show (p.MaxWave - 1) - (p.MaxWave - 1) = 0 from by omega] at hd
  exact ⟨hd.1, hd.2.1, hd.2.2⟩

/-- Witness for `smooth_converges`: under the fixture `p4` with timing
source `f1` (wave count 2 twice as fast as the alternatives), the
controller reaches RUN with best wave count 2 after
`WarmUpCount + 4 * SampleCount * (MaxWave - 1) = 9` executions. -/
theorem smooth_converges_witness :
    (runClosed p4 f1 (p4.WarmUpCount + 4 * p4.SampleCount * (p4.MaxWave - 1))
        (WaveLimiter.init p4 4 true)).state_ = .RUN ∧
    (runClosed p4 f1 (p4.WarmUpCount + 4 * p4.SampleCount * (p4.MaxWave - 1))
        (WaveLimiter.init p4 4 true)).bestWave_ = 2 ∧
    WaveLimiter.getWavesPerSH
      (runClosed p4 f1 (p4.WarmUpCount + 4 * p4.SampleCount * (p4.MaxWave - 1))
        (WaveLimiter.init p4 4 true)) = 2 :=
  smooth_converges p4 (by decide) 4 (by decide) f1 2 (by decide) (by decide)
    (by decide) (by decide) (by decide)
    (fun w h1 hM hne => by
      rw [show f1 w = 200 from if_neg hne]
      decide)

end gpu
